import Mathlib

/-!
# Verification of the fmconv core against its specification

Shallow embedding, in Lean 4, of the core subsystems of the `fmconv`
retro-music conversion tool:

* the AdPlug-side VGM capture chip `CVgmOpl` (src/adplug_vgm/vgm_opl.cpp),
* the passive streaming capture chip `VGMOPL3` (src/vgm_writer/vgm_chip.cpp),
* the HMP variable-length decoder and the HMP → MIDI transcoder
  (src/formats/hmp_to_midi.cpp, src/formats/hmp_file.cpp),
* the GD3 metadata codec (src/vgm_writer/gd3_tag.cpp),
* the gzip wrapper (src/unified_converter.cpp),
* the FM9 container header builder (src/fm9_writer/fm9_writer.cpp),
* the native-OPL driver loop with loop-point discovery
  (src/unified_converter.cpp, convert_native_opl).

Byte sequences are `List Nat` with bytes in `0..255`; machine-integer
truncation is modelled with explicit `% 2^w` at the points where the C++
code casts or where unsigned arithmetic wraps.
-/

namespace FMConv

/-! ## Little-endian byte helpers -/

/-- Read a 32-bit little-endian value at `off` (out-of-range bytes read 0,
matching zero-initialised buffers). -/
def getU32le (l : List Nat) (off : Nat) : Nat :=
  l.getD off 0 + 256 * l.getD (off + 1) 0 + 65536 * l.getD (off + 2) 0 +
    16777216 * l.getD (off + 3) 0

/-- The four little-endian bytes of `v % 2^32`. -/
def u32leBytes (v : Nat) : List Nat :=
  [v % 256, v / 256 % 256, v / 65536 % 256, v / 16777216 % 256]

/-- Overwrite the four bytes at `off` with the little-endian encoding of
`v % 2^32` (mirrors `u32[off / 4] = v` on a `uint32_t*` view of the buffer). -/
def setU32le (l : List Nat) (off : Nat) (v : Nat) : List Nat :=
  ((((l.set off (v % 256)).set (off + 1) (v / 256 % 256)).set
      (off + 2) (v / 65536 % 256)).set (off + 3) (v / 16777216 % 256))

theorem length_setU32le (l : List Nat) (off v : Nat) :
    (setU32le l off v).length = l.length := by
  simp [setU32le]

theorem getD_setU32le_of_lt (l : List Nat) (off v i : Nat) (h : i < off) :
    (setU32le l off v).getD i 0 = l.getD i 0 := by
  simp only [setU32le, List.getD_eq_getElem?_getD]
  rw [List.getElem?_set_ne (by omega), List.getElem?_set_ne (by omega),
    List.getElem?_set_ne (by omega), List.getElem?_set_ne (by omega)]

theorem getD_setU32le_of_ge (l : List Nat) (off v i : Nat) (h : off + 4 ≤ i) :
    (setU32le l off v).getD i 0 = l.getD i 0 := by
  simp only [setU32le, List.getD_eq_getElem?_getD]
  rw [List.getElem?_set_ne (by omega), List.getElem?_set_ne (by omega),
    List.getElem?_set_ne (by omega), List.getElem?_set_ne (by omega)]

theorem getU32le_setU32le_self (l : List Nat) (off v : Nat)
    (h : off + 4 ≤ l.length) :
    getU32le (setU32le l off v) off = v % 2 ^ 32 := by
  have h0 : off < l.length := by omega
  have h1 : off + 1 < l.length := by omega
  have h2 : off + 2 < l.length := by omega
  have h3 : off + 3 < l.length := by omega
  simp only [getU32le, setU32le, List.getD_eq_getElem?_getD]
  rw [show (((l.set off (v % 256)).set (off + 1) (v / 256 % 256)).set
      (off + 2) (v / 65536 % 256)).set (off + 3) (v / 16777216 % 256) =
      (((l.set off (v % 256)).set (off + 1) (v / 256 % 256)).set
      (off + 2) (v / 65536 % 256)).set (off + 3) (v / 16777216 % 256) from rfl]
  have e0 : ((((l.set off (v % 256)).set (off + 1) (v / 256 % 256)).set
      (off + 2) (v / 65536 % 256)).set (off + 3) (v / 16777216 % 256))[off]? =
      some (v % 256) := by
    rw [List.getElem?_set_ne (by omega), List.getElem?_set_ne (by omega),
      List.getElem?_set_ne (by omega), List.getElem?_set_self (by simpa using h0)]
  have e1 : ((((l.set off (v % 256)).set (off + 1) (v / 256 % 256)).set
      (off + 2) (v / 65536 % 256)).set (off + 3) (v / 16777216 % 256))[off + 1]? =
      some (v / 256 % 256) := by
    rw [List.getElem?_set_ne (by omega), List.getElem?_set_ne (by omega),
      List.getElem?_set_self (by simpa using h1)]
  have e2 : ((((l.set off (v % 256)).set (off + 1) (v / 256 % 256)).set
      (off + 2) (v / 65536 % 256)).set (off + 3) (v / 16777216 % 256))[off + 2]? =
      some (v / 65536 % 256) := by
    rw [List.getElem?_set_ne (by omega), List.getElem?_set_self (by simpa using h2)]
  have e3 : ((((l.set off (v % 256)).set (off + 1) (v / 256 % 256)).set
      (off + 2) (v / 65536 % 256)).set (off + 3) (v / 16777216 % 256))[off + 3]? =
      some (v / 16777216 % 256) := by
    rw [List.getElem?_set_self (by simpa using h3)]
  rw [e0, e1, e2, e3]
  simp only [Option.getD_some]
  omega

theorem getU32le_setU32le_disjoint (l : List Nat) (off off' v : Nat)
    (h : off + 4 ≤ off' ∨ off' + 4 ≤ off) :
    getU32le (setU32le l off v) off' = getU32le l off' := by
  unfold getU32le
  rcases h with h | h
  · rw [getD_setU32le_of_ge _ _ _ _ (by omega), getD_setU32le_of_ge _ _ _ _ (by omega),
      getD_setU32le_of_ge _ _ _ _ (by omega), getD_setU32le_of_ge _ _ _ _ (by omega)]
  · rw [getD_setU32le_of_lt _ _ _ _ (by omega), getD_setU32le_of_lt _ _ _ _ (by omega),
      getD_setU32le_of_lt _ _ _ _ (by omega), getD_setU32le_of_lt _ _ _ _ (by omega)]

theorem getD_append_left (l m : List Nat) (i : Nat) (h : i < l.length) :
    (l ++ m).getD i 0 = l.getD i 0 := by
  simp [List.getD, List.getElem?_append_left h]

theorem getU32le_append_left (l m : List Nat) (off : Nat)
    (h : off + 4 ≤ l.length) :
    getU32le (l ++ m) off = getU32le l off := by
  unfold getU32le
  rw [getD_append_left _ _ _ (by omega), getD_append_left _ _ _ (by omega),
    getD_append_left _ _ _ (by omega), getD_append_left _ _ _ (by omega)]

theorem drop_setU32le (l : List Nat) (off v n : Nat) (h : off + 4 ≤ n) :
    (setU32le l off v).drop n = l.drop n := by
  simp only [setU32le]
  rw [List.drop_set_of_lt _ _ (by omega), List.drop_set_of_lt _ _ (by omega),
    List.drop_set_of_lt _ _ (by omega), List.drop_set_of_lt _ _ (by omega)]

/-- Disjoint-range bitwise or is addition: `a ||| (b <<< s) = a + b * 2 ^ s`
whenever `a < 2 ^ s`. -/
theorem lor_shiftLeft_eq_add (a b s : Nat) (h : a < 2 ^ s) :
    a ||| b <<< s = a + b * 2 ^ s := by
  rw [Nat.shiftLeft_eq, Nat.lor_comm, Nat.mul_comm b (2 ^ s),
    ← Nat.mul_add_lt_is_or h b]
  omega

/-- `%` by a power of two distributes over bitwise or. -/
theorem lor_mod_two_pow (x y n : Nat) :
    (x ||| y) % 2 ^ n = x % 2 ^ n ||| y % 2 ^ n := by
  apply Nat.eq_of_testBit_eq
  intro i
  simp only [Nat.testBit_mod_two_pow, Nat.testBit_or]
  by_cases h : i < n <;> simp [h]

/-! ## C2 / C6 / C10 — the HMP → MIDI transcoder

`readHMPVarLen` (src/formats/hmp_to_midi.cpp) and `HMPFile::readVarLen`
(src/formats/hmp_file.cpp) are byte-for-byte identical loops; they are
embedded once below.  The loop walks `data` from `pos`, treating bytes with
the top bit clear as continuation bytes and the first byte with the top bit
set as the terminal byte; each byte contributes its low 7 bits at the current
shift.  The C++ accumulator is a `uint32_t`, hence the `% 2 ^ 32` on each
accumulation; a shift count of 32 or more (reachable only after five or more
continuation bytes) is undefined behaviour in the C++, so theorems about the
general decoding rule restrict to at most four continuation bytes. -/

def hmpVarLenList : List Nat → Nat → Nat → Nat × Nat
  | [], _, value => (value, 0)
  | b :: rest, shift, value =>
    if b < 0x80 then
      let r := hmpVarLenList rest (shift + 7) ((value ||| (b &&& 0x7F) <<< shift) % 2 ^ 32)
      (r.1, r.2 + 1)
    else ((value ||| (b &&& 0x7F) <<< shift) % 2 ^ 32, 1)

/-- `readHMPVarLen(data, size, pos)`: returns the decoded value and the new
read position (`pos` plus the number of bytes consumed). -/
def readHMPVarLen (data : List Nat) (pos : Nat) : Nat × Nat :=
  let r := hmpVarLenList (data.drop pos) 0 0
  (r.1, pos + r.2)

/-- Untruncated or-accumulation of the low 7 bits of the continuation bytes
`cs` and terminal byte `t`, starting at bit position `shift`. -/
def hmpAccum (cs : List Nat) (t shift : Nat) : Nat :=
  match cs with
  | [] => (t &&& 0x7F) <<< shift
  | b :: rest => (b &&& 0x7F) <<< shift ||| hmpAccum rest t (shift + 7)

theorem and_127_eq_mod (x : Nat) : x &&& 127 = x % 128 := by
  have := Nat.and_pow_two_sub_one_eq_mod x 7
  norm_num at this
  exact this

theorem mod_lor_mod (x y n : Nat) :
    (x % 2 ^ n ||| y) % 2 ^ n = (x ||| y) % 2 ^ n := by
  rw [lor_mod_two_pow, Nat.mod_mod_of_dvd x (dvd_refl (2 ^ n)), ← lor_mod_two_pow]

theorem hmpVarLenList_eval (cs : List Nat) (hcs : ∀ b ∈ cs, b < 0x80) :
    ∀ (t : Nat) (rest : List Nat) (shift value : Nat),
      0x80 ≤ t →
      hmpVarLenList (cs ++ t :: rest) shift value =
        ((value ||| hmpAccum cs t shift) % 2 ^ 32, cs.length + 1) := by
  induction cs with
  | nil =>
    intro t rest shift value ht
    rw [List.nil_append, hmpVarLenList]
    rw [if_neg (by omega)]
    rfl
  | cons b cs ih =>
    intro t rest shift value ht
    have hb : b < 0x80 := hcs b (by simp)
    rw [List.cons_append, hmpVarLenList, if_pos hb]
    dsimp only
    rw [ih (fun x hx => hcs x (by simp [hx])) t rest (shift + 7)
      ((value ||| (b &&& 0x7F) <<< shift) % 2 ^ 32) ht]
    refine Prod.ext ?_ ?_
    · show ((value ||| (b &&& 0x7F) <<< shift) % 2 ^ 32 |||
          hmpAccum cs t (shift + 7)) % 2 ^ 32 =
        (value ||| hmpAccum (b :: cs) t shift) % 2 ^ 32
      rw [mod_lor_mod, Nat.lor_assoc]
      rfl
    · show cs.length + 1 + 1 = (b :: cs).length + 1
      simp

/-- The value form of `hmpAccum`: low 7 bits of each byte, the `i`-th byte
shifted left by `7 * i`, folded from the left. -/
theorem hmpAccum_eq_foldr (cs : List Nat) (t : Nat) :
    ∀ shift, hmpAccum cs t shift =
      (List.foldr (fun b acc => b % 128 + 128 * acc) (t % 128) cs) * 2 ^ shift := by
  induction cs with
  | nil =>
    intro shift
    simp [hmpAccum, Nat.shiftLeft_eq, and_127_eq_mod]
  | cons b cs ih =>
    intro shift
    rw [hmpAccum, ih (shift + 7), and_127_eq_mod, Nat.shiftLeft_eq]
    have hlt : b % 128 * 2 ^ shift < 2 ^ (shift + 7) := by
      have hm : b % 128 < 128 := Nat.mod_lt _ (by omega)
      have h2 : 2 ^ (shift + 7) = 128 * 2 ^ shift := by
        rw [Nat.pow_add]; ring
      rw [h2]
      exact Nat.mul_lt_mul_of_lt_of_le hm (Nat.le_refl _)
        (Nat.pos_pow_of_pos shift (by omega))
    rw [Nat.lor_comm, Nat.mul_comm _ (2 ^ (shift + 7)),
      ← Nat.mul_add_lt_is_or hlt _]
    have h2 : 2 ^ (shift + 7) = 128 * 2 ^ shift := by
      rw [Nat.pow_add]; ring
    rw [h2]
    simp only [List.foldr_cons]
    ring

/-!
The C2 theorems live at the end of the file with the other claim theorems.
-/



/-! ## C10 — HMP header parsing and derived tempo

Embedding of `HMPFile::parseHeader` (src/formats/hmp_file.cpp, lines
113-195); the header section of `convertHMPtoMIDI`
(src/formats/hmp_to_midi.cpp, lines 218-279) performs the identical
signature check, padding skips, field reads and tempo derivation. -/

structure HMPInfo where
  is_hmp2 : Bool
  file_length : Nat
  num_chunks : Nat
  bpm : Nat
  song_time : Nat
  tempo : Nat
  chunk_start : Nat
  deriving Repr, DecidableEq

/-- The 8-byte signature `HMIMIDIP`. -/
def hmimidip : List Nat := [0x48, 0x4D, 0x49, 0x4D, 0x49, 0x44, 0x49, 0x50]

/-- The 6-byte HMP v2 discriminant `013195`. -/
def marker013195 : List Nat := [0x30, 0x31, 0x33, 0x31, 0x39, 0x35]

def parseHMPHeader (data : List Nat) : Option HMPInfo :=
  if data.length < 8 then none
  else if data.take 8 ≠ hmimidip then none
  else
    let is2 : Bool := decide (8 + 6 ≤ data.length) &&
      decide ((data.drop 8).take 6 = marker013195)
    let pos1 : Nat := if is2 then 14 else 8
    let zero_count : Nat := if is2 then 18 else 24
    if data.length < pos1 + zero_count then none
    else
      let pos2 := pos1 + zero_count
      if data.length < pos2 + 32 then none
      else
        let file_length := getU32le data pos2
        let num_chunks := getU32le data (pos2 + 16)
        let bpm := getU32le data (pos2 + 24)
        let song_time := getU32le data (pos2 + 28)
        let tempo := if bpm = 0 then 500000 else 60000000 / bpm
        let pos3 := pos2 + 32
        let skip_bytes : Nat := if is2 then 840 else 712
        if data.length < pos3 + skip_bytes then none
        else
          some { is_hmp2 := is2, file_length := file_length,
                 num_chunks := num_chunks, bpm := bpm, song_time := song_time,
                 tempo := tempo, chunk_start := pos3 + skip_bytes }

/-! ## C9 — FM9 container header

Embedding of `FM9Writer::buildHeader` (src/fm9_writer/fm9_writer.cpp,
lines 536-567) over the writer fields it reads.  `sizeof(FM9Header)` is 24
(`4s + 4 * u8 + 4 * u32`, no padding). -/

structure FM9Writer where
  vgm_data : List Nat
  audio_data : List Nat
  fx_data : List Nat
  image_data : List Nat
  audio_format : Nat
  source_format : Nat
  deriving Repr, DecidableEq

structure FM9Header where
  magic : List Nat
  version : Nat
  flags : Nat
  audio_format : Nat
  source_format : Nat
  audio_offset : Nat
  audio_size : Nat
  fx_offset : Nat
  fx_size : Nat
  deriving Repr, DecidableEq

def FM9_FLAG_HAS_AUDIO : Nat := 0x01
def FM9_FLAG_HAS_FX : Nat := 0x02
def FM9_FLAG_HAS_IMAGE : Nat := 0x04

def FM9Writer.buildHeader (w : FM9Writer) : FM9Header :=
  { magic := [0x46, 0x4D, 0x39, 0x30]
    version := 1
    flags := (if w.audio_data ≠ [] then FM9_FLAG_HAS_AUDIO else 0) |||
      (if w.fx_data ≠ [] then FM9_FLAG_HAS_FX else 0) |||
      (if w.image_data ≠ [] then FM9_FLAG_HAS_IMAGE else 0)
    audio_format := w.audio_format
    source_format := w.source_format % 256
    audio_offset := 0
    audio_size := w.audio_data.length % 2 ^ 32
    fx_offset := 24
    fx_size := w.fx_data.length % 2 ^ 32 }


/-! ## C1 / C3 / C4 / C5 — the VGM capture chips

Embedding of `CVgmOpl` (src/adplug_vgm/vgm_opl.cpp), the buffered capture
chip used for AdPlug native-OPL conversion, and of `VGMOPL3`
(src/vgm_writer/vgm_chip.cpp), the streaming capture chip used for MIDI
conversion.  `uint32_t` members (`pending_samples_`, `total_samples_`)
wrap mod `2 ^ 32`; `uint8_t` casts take `% 256`, `uint16_t` casts `% 65536`.
Register-state matrices are total functions from (chip, low-address). -/

/-- A buffered register write (`struct OplWrite`). -/
structure OplWrite where
  delay_samples : Nat
  reg : Nat
  val : Nat
  chip : Nat
  deriving Repr, DecidableEq

inductive ChipType where
  | TYPE_OPL2
  | TYPE_DUAL_OPL2
  | TYPE_OPL3
  deriving Repr, DecidableEq

open ChipType

structure CVgmOpl where
  writes : List OplWrite
  pending_samples : Nat
  total_samples : Nat
  used_opl3_regs : Bool
  used_opl3_mode : Bool
  used_second_chip : Bool
  loop_point_marked : Bool
  loop_write_index : Nat
  loop_sample_pos : Nat
  reg_state : Nat → Nat → Nat
  reg_written : Nat → Nat → Bool
  currChip : Nat

/-- The freshly constructed chip (constructor `CVgmOpl::CVgmOpl`). -/
def CVgmOpl.initial : CVgmOpl :=
  { writes := [], pending_samples := 0, total_samples := 0,
    used_opl3_regs := false, used_opl3_mode := false, used_second_chip := false,
    loop_point_marked := false, loop_write_index := 0, loop_sample_pos := 0,
    reg_state := fun _ _ => 0, reg_written := fun _ _ => false, currChip := 0 }

/-- `CVgmOpl::init`: resets the register-state tracking but keeps the
buffered writes. -/
def CVgmOpl.init (s : CVgmOpl) : CVgmOpl :=
  { s with reg_state := fun _ _ => 0, reg_written := fun _ _ => false }

/-- `CVgmOpl::setchip`: `Copl::setchip` stores the chip index, and the
second-chip flag latches when chip 1 is selected. -/
def CVgmOpl.setchip (s : CVgmOpl) (n : Nat) : CVgmOpl :=
  { s with
    currChip := n
    used_second_chip := s.used_second_chip || decide (n = 1) }

/-- `CVgmOpl::write` (src/adplug_vgm/vgm_opl.cpp, lines 82-133). -/
def CVgmOpl.write (s : CVgmOpl) (reg val : Nat) : CVgmOpl :=
  let uor := s.used_opl3_regs || decide (0x100 ≤ reg)
  let uom := s.used_opl3_mode ||
    (decide (0x100 ≤ reg) && decide (reg = 0x105) && decide (val &&& 0x01 ≠ 0))
  let chip := if 0x100 ≤ reg then 1 else s.currChip
  let reg_low := reg % 256
  let is_key_or_volume :=
    (0xA0 ≤ reg_low ∧ reg_low ≤ 0xBF) ∨ (0x40 ≤ reg_low ∧ reg_low ≤ 0x55)
  if s.reg_written chip reg_low ∧ s.reg_state chip reg_low = val % 256 ∧
      ¬ is_key_or_volume then
    { s with used_opl3_regs := uor, used_opl3_mode := uom }
  else
    { s with
      used_opl3_regs := uor
      used_opl3_mode := uom
      reg_state := fun c r => if c = chip ∧ r = reg_low then val % 256 else s.reg_state c r
      reg_written := fun c r => if c = chip ∧ r = reg_low then true else s.reg_written c r
      writes := s.writes ++
        [⟨s.pending_samples, reg % 65536, val % 256, s.currChip % 256⟩]
      total_samples := (s.total_samples + s.pending_samples) % 2 ^ 32
      pending_samples := 0 }

/-- `CVgmOpl::advanceSamples`. -/
def CVgmOpl.advanceSamples (s : CVgmOpl) (samples : Nat) : CVgmOpl :=
  { s with pending_samples := (s.pending_samples + samples) % 2 ^ 32 }

/-- `CVgmOpl::markLoopPoint`. -/
def CVgmOpl.markLoopPoint (s : CVgmOpl) : CVgmOpl :=
  if s.loop_point_marked then s
  else
    { s with
      loop_point_marked := true
      loop_write_index := s.writes.length
      loop_sample_pos := (s.total_samples + s.pending_samples) % 2 ^ 32 }

/-- `CVgmOpl::setLoopPoint` (the parameters arrive as `size_t` and
`uint32_t` from the driver). -/
def CVgmOpl.setLoopPoint (s : CVgmOpl) (write_index sample_pos : Nat) : CVgmOpl :=
  if s.loop_point_marked then s
  else
    { s with
      loop_point_marked := true
      loop_write_index := write_index
      loop_sample_pos := sample_pos }

/-- `CVgmOpl::detectChipType`: priority OPL3 > Dual OPL2 > OPL2. -/
def CVgmOpl.detectChipType (s : CVgmOpl) : ChipType :=
  if s.used_opl3_regs || s.used_opl3_mode then TYPE_OPL3
  else if s.used_second_chip then TYPE_DUAL_OPL2
  else TYPE_OPL2

/-- `CVgmOpl::writeVgmDelay` (src/adplug_vgm/vgm_opl.cpp, lines 335-363):
the delay-encoding loop, returned as the bytes it pushes. -/
def writeVgmDelay (samples : Nat) : List Nat :=
  if samples = 0 then []
  else if samples = 735 then [0x62]
  else if samples = 882 then [0x63]
  else if samples ≤ 16 then [0x70 + (samples - 1)]
  else
    let wait := min samples 65535
    0x61 :: wait % 256 :: wait / 256 :: writeVgmDelay (samples - wait)
termination_by samples
decreasing_by simp_all; omega

/-- `CVgmOpl::writeVgmCommand` dispatch inside `writeVgmData`. -/
def vgmCommandBytes (dt : ChipType) (w : OplWrite) : List Nat :=
  match dt with
  | TYPE_OPL2 => [0x5A, w.reg % 256, w.val]
  | TYPE_DUAL_OPL2 =>
    if w.chip = 0 then [0x5A, w.reg % 256, w.val] else [0xAA, w.reg % 256, w.val]
  | TYPE_OPL3 =>
    if 0x100 ≤ w.reg then [0x5F, w.reg % 256, w.val] else [0x5E, w.reg % 256, w.val]

/-- `CVgmOpl::writeVgmData` (lines 284-326): emits, for each buffered write,
its pending delay followed by the register command, and records the buffer
size at the loop write index.  `i` is the loop counter, `curLen` the current
buffer length, `acc` the `loop_byte_offset` accumulator (initially 0). -/
def writeVgmDataAux (dt : ChipType) (marked : Bool) (loopIdx : Nat) :
    List OplWrite → Nat → Nat → Nat → List Nat × Nat
  | [], _, _, acc => ([], acc)
  | w :: rest, i, curLen, acc =>
    let acc1 := if marked ∧ i = loopIdx then curLen else acc
    let db := if 0 < w.delay_samples then writeVgmDelay w.delay_samples else []
    let bytes := db ++ vgmCommandBytes dt w
    let out := writeVgmDataAux dt marked loopIdx rest (i + 1) (curLen + bytes.length) acc1
    (bytes ++ out.1, out.2)

/-- `CVgmOpl::writeVgmHeader` (lines 251-282): a zeroed 0x100-byte header
with magic, version, data offset and the detected chip clock. -/
def writeVgmHeader (dt : ChipType) : List Nat :=
  let base := setU32le (setU32le (setU32le (List.replicate 0x100 0)
    0x00 0x206d6756) 0x08 0x151) 0x34 (0x100 - 0x34)
  match dt with
  | TYPE_OPL2 => setU32le base 0x50 3579545
  | TYPE_DUAL_OPL2 => setU32le base 0x50 (3579545 ||| 0x40000000)
  | TYPE_OPL3 => setU32le base 0x5C 14318180

/-- The `loop_byte_offset` computed inside `CVgmOpl::generateVgm`. -/
def CVgmOpl.loopByteOffset (s : CVgmOpl) : Nat :=
  (writeVgmDataAux (s.detectChipType) s.loop_point_marked s.loop_write_index
    s.writes 0 0x100 0).2

/-- The command body emitted by `writeVgmData` for session `s`. -/
def CVgmOpl.vgmBody (s : CVgmOpl) : List Nat :=
  (writeVgmDataAux s.detectChipType s.loop_point_marked s.loop_write_index
    s.writes 0 0x100 0).1

/-- `generateVgm` before the final header back-patching: header, body, end
marker, and (when a GD3 tag is present) the GD3 offset patch and tag
bytes. -/
def CVgmOpl.vgmPreHeader (s : CVgmOpl) (gd3 : Option (List Nat)) : List Nat :=
  match gd3 with
  | some g =>
    setU32le (writeVgmHeader s.detectChipType ++ s.vgmBody ++ [0x66]) 0x14
      ((writeVgmHeader s.detectChipType ++ s.vgmBody ++ [0x66]).length - 0x14) ++ g
  | none => writeVgmHeader s.detectChipType ++ s.vgmBody ++ [0x66]

/-- `CVgmOpl::generateVgm` (lines 198-249).  The GD3 argument stands for the
serialised bytes `gd3_tag->serialize()` appended by `writeGD3Tag`.  The
`uint32_t` subtraction `total_samples_ - loop_sample_pos_` is modelled with
the usual wraparound. -/
def CVgmOpl.generateVgm (s : CVgmOpl) (gd3 : Option (List Nat)) : List Nat :=
  let total := (s.total_samples + s.pending_samples) % 2 ^ 32
  let vgm2 := s.vgmPreHeader gd3
  let vgm3 := setU32le (setU32le vgm2 0x04 (vgm2.length - 0x04)) 0x18 total
  if s.loop_point_marked ∧ 0 < s.loopByteOffset then
    setU32le (setU32le vgm3 0x1C (s.loopByteOffset - 0x1C))
      0x20 (total + 2 ^ 32 - s.loop_sample_pos % 2 ^ 32)
  else vgm3

/-! ### The streaming chip `VGMOPL3` -/

structure VGMOPL3 where
  vgm_buffer : List Nat
  total_samples : Nat
  pending_samples : Nat
  reg_state : Nat → Nat

/-- The body bytes pushed by the `while` loop of `VGMOPL3::flushDelay`
(src/vgm_writer/vgm_chip.cpp, lines 90-108): plain `0x61 lo hi` waits in
chunks of at most 65535. -/
def flushDelayBytes (p : Nat) : List Nat :=
  if p = 0 then []
  else
    let samples := min p 65535
    0x61 :: samples % 256 :: samples / 256 :: flushDelayBytes (p - samples)
termination_by p
decreasing_by simp_all; omega

def VGMOPL3.flushDelay (s : VGMOPL3) : VGMOPL3 :=
  if s.pending_samples = 0 then s
  else
    { s with
      total_samples := (s.total_samples + s.pending_samples) % 2 ^ 32
      vgm_buffer := s.vgm_buffer ++ flushDelayBytes s.pending_samples
      pending_samples := 0 }

/-- `VGMOPL3::writeReg` (lines 110-133): drops any write whose value equals
the stored state for `addr & 0x1FF` — no written-before flag, no key/volume
band exception — otherwise updates state, flushes the pending delay and
appends the OPL3 command. -/
def VGMOPL3.writeReg (s : VGMOPL3) (addr data : Nat) : VGMOPL3 :=
  if s.reg_state (addr &&& 0x1FF) = data % 256 then s
  else
    let s1 := { s with reg_state := fun i =>
      if i = (addr &&& 0x1FF) then data % 256 else s.reg_state i }
    let s2 := s1.flushDelay
    let opcode := if addr &&& 0x100 ≠ 0 then 0x5F else 0x5E
    { s2 with vgm_buffer := s2.vgm_buffer ++ [opcode, addr % 256, data % 256] }

/-- `VGMOPL3::accumulateDelay`. -/
def VGMOPL3.accumulateDelay (s : VGMOPL3) (samples : Nat) : VGMOPL3 :=
  { s with pending_samples := (s.pending_samples + samples) % 2 ^ 32 }

/-- `VGMOPL3::initializeHeader`: 128 zeroed bytes, magic, version 1.51,
data offset `0x80 - 0x34`, YMF262 clock at 0x5C. -/
def vgmopl3InitialHeader : List Nat :=
  setU32le (setU32le (setU32le (setU32le (List.replicate 128 0)
    0x00 0x206d6756) 0x08 0x151) 0x34 (0x80 - 0x34)) 0x5C 14318180

/-- The constructor `VGMOPL3::VGMOPL3`: zeroed register state, header,
then the `initializeOPL3` write sequence. -/
def VGMOPL3.initial : VGMOPL3 :=
  let s : VGMOPL3 := { vgm_buffer := vgmopl3InitialHeader, total_samples := 0
                       pending_samples := 0, reg_state := fun _ => 0 }
  ((((((s.writeReg 0x004 96).writeReg 0x004 128).writeReg 0x105 0x0).writeReg
    0x105 0x1).writeReg 0x105 0x0).writeReg 0x001 32).writeReg 0x105 0x1

/-- `VGMOPL3::finalize` (lines 171-200): flush, end marker, optional GD3
(`gd3` stands for `gd3_tag->serialize()`), then `updateHeader`. -/
def VGMOPL3.finalize (s : VGMOPL3) (gd3 : Option (List Nat)) : List Nat :=
  let s1 := s.flushDelay
  let buf1 := s1.vgm_buffer ++ [0x66]
  let buf2 := match gd3 with
    | some g => setU32le buf1 0x14 (buf1.length - 0x14) ++ g
    | none => buf1
  setU32le (setU32le buf2 0x04 (buf2.length - 0x04)) 0x18 s1.total_samples

/-- Buffers never shrink across `VGMOPL3::flushDelay`. -/
theorem VGMOPL3.flushDelay_buffer_le (s : VGMOPL3) :
    s.vgm_buffer.length ≤ s.flushDelay.vgm_buffer.length := by
  unfold VGMOPL3.flushDelay
  split
  · exact Nat.le_refl _
  · simp

set_option maxRecDepth 4000 in
/-- C1, counterexample: on the streaming capture chip `VGMOPL3`, a write to
register 0xB0 — inside the key-on/off band 0xA0–0xBF, which the claim says
is never suppressed — with a value equal to the stored state (0 on a fresh
chip) is dropped: no event is appended. -/
theorem c1_counterexample_key_band_write_dropped :
    (VGMOPL3.initial.writeReg 0xB0 0).vgm_buffer = VGMOPL3.initial.vgm_buffer := by
  decide

/-- C1 (amended): the claimed dedup discipline — a write is dropped iff the
register was written before, the value is unchanged, and the low address is
outside the key band 0xA0–0xBF and volume band 0x40–0x55; otherwise the
state matrix is updated, pending samples drain into the event delay, and the
event is appended — holds exactly for the buffered capture chip `CVgmOpl`.
The streaming chip `VGMOPL3` instead drops a write iff the value equals the
stored state for `addr & 0x1FF` (initially 0), with no written-before flag
and no key/volume-band exception. -/
theorem c1_capture_write_dedup :
    (∀ (s : CVgmOpl) (reg val : Nat),
      (((s.write reg val).writes = s.writes ∧
          (s.write reg val).pending_samples = s.pending_samples) ↔
        (s.reg_written (if 0x100 ≤ reg then 1 else s.currChip) (reg % 256) = true ∧
          s.reg_state (if 0x100 ≤ reg then 1 else s.currChip) (reg % 256) = val % 256 ∧
          ¬ ((0xA0 ≤ reg % 256 ∧ reg % 256 ≤ 0xBF) ∨
             (0x40 ≤ reg % 256 ∧ reg % 256 ≤ 0x55)))) ∧
      (¬ (s.reg_written (if 0x100 ≤ reg then 1 else s.currChip) (reg % 256) = true ∧
          s.reg_state (if 0x100 ≤ reg then 1 else s.currChip) (reg % 256) = val % 256 ∧
          ¬ ((0xA0 ≤ reg % 256 ∧ reg % 256 ≤ 0xBF) ∨
             (0x40 ≤ reg % 256 ∧ reg % 256 ≤ 0x55))) →
        (s.write reg val).writes =
            s.writes ++ [⟨s.pending_samples, reg % 65536, val % 256, s.currChip % 256⟩] ∧
          (s.write reg val).pending_samples = 0 ∧
          (s.write reg val).total_samples = (s.total_samples + s.pending_samples) % 2 ^ 32 ∧
          (s.write reg val).reg_state (if 0x100 ≤ reg then 1 else s.currChip) (reg % 256) = val % 256 ∧
          (s.write reg val).reg_written (if 0x100 ≤ reg then 1 else s.currChip) (reg % 256) = true)) ∧
    (∀ (s : VGMOPL3) (addr data : Nat),
      (((s.writeReg addr data).vgm_buffer = s.vgm_buffer ∧
          (s.writeReg addr data).pending_samples = s.pending_samples) ↔
        s.reg_state (addr &&& 0x1FF) = data % 256)) := by
  constructor
  · intro s reg val
    unfold CVgmOpl.write
    dsimp only
    by_cases hcond : (s.reg_written (if 0x100 ≤ reg then 1 else s.currChip) (reg % 256) = true ∧
        s.reg_state (if 0x100 ≤ reg then 1 else s.currChip) (reg % 256) = val % 256 ∧
        ¬ ((0xA0 ≤ reg % 256 ∧ reg % 256 ≤ 0xBF) ∨
           (0x40 ≤ reg % 256 ∧ reg % 256 ≤ 0x55)))
    · rw [if_pos hcond]
      exact ⟨⟨fun _ => hcond, fun _ => ⟨rfl, rfl⟩⟩, fun hn => absurd hcond hn⟩
    · rw [if_neg hcond]
      refine ⟨⟨?_, fun hc => absurd hc hcond⟩, fun _ => ⟨rfl, rfl, rfl, ?_, ?_⟩⟩
      · intro hcontra
        exact absurd hcontra.1 (by simp)
      · simp
      · simp
  · intro s addr data
    by_cases hcond : s.reg_state (addr &&& 0x1FF) = data % 256
    · simp [VGMOPL3.writeReg, hcond]
    · unfold VGMOPL3.writeReg
      rw [if_neg hcond]
      dsimp only
      constructor
      · intro hcontra
        have hb := hcontra.1
        have hle := VGMOPL3.flushDelay_buffer_le
          { s with reg_state := fun i =>
              if i = (addr &&& 0x1FF) then data % 256 else s.reg_state i }
        have hlen : s.vgm_buffer.length =
            (({ s with reg_state := fun i =>
              if i = (addr &&& 0x1FF) then data % 256 else s.reg_state i} :
                VGMOPL3).flushDelay.vgm_buffer ++
              [if addr &&& 0x100 ≠ 0 then 0x5F else 0x5E, addr % 256, data % 256]).length :=
          congrArg List.length hb.symm
        simp only [List.length_append, List.length_cons, List.length_nil] at hlen
        simp only at hle
        omega
      · intro hc; exact absurd hc hcond

/-- Witness for `c1_capture_write_dedup`: the first write of value 5 to
register 0xB0 on a fresh `CVgmOpl` is appended with delay 0 and updates the
state matrix. -/
theorem c1_capture_write_dedup_witness :
    (CVgmOpl.initial.write 0xB0 5).writes =
        CVgmOpl.initial.writes ++ [⟨CVgmOpl.initial.pending_samples,
          0xB0 % 65536, 5 % 256, CVgmOpl.initial.currChip % 256⟩] ∧
      (CVgmOpl.initial.write 0xB0 5).pending_samples = 0 ∧
      (CVgmOpl.initial.write 0xB0 5).total_samples =
        (CVgmOpl.initial.total_samples + CVgmOpl.initial.pending_samples) % 2 ^ 32 ∧
      (CVgmOpl.initial.write 0xB0 5).reg_state
        (if 0x100 ≤ 0xB0 then 1 else CVgmOpl.initial.currChip) (0xB0 % 256) = 5 % 256 ∧
      (CVgmOpl.initial.write 0xB0 5).reg_written
        (if 0x100 ≤ 0xB0 then 1 else CVgmOpl.initial.currChip) (0xB0 % 256) = true :=
  (c1_capture_write_dedup.1 CVgmOpl.initial 0xB0 5).2 (by decide)

/-! ### C3 — delay encoding -/

/-- Second definition for the refinement comparison, following the spec's
words in §4.1 ("Delay encoding"): 735 → `0x62`; 882 → `0x63`; 1–16 →
`0x70 + (n-1)`; up to 65535 → `0x61 lo hi`; otherwise emit `0x61 0xFF 0xFF`,
subtract 65535 and recurse on the remainder. -/
def specDelayEncoding (n : Nat) : List Nat :=
  if n = 0 then []
  else if n = 735 then [0x62]
  else if n = 882 then [0x63]
  else if 1 ≤ n ∧ n ≤ 16 then [0x70 + (n - 1)]
  else if n ≤ 65535 then [0x61, n % 256, n / 256]
  else 0x61 :: 0xFF :: 0xFF :: specDelayEncoding (n - 65535)
termination_by n
decreasing_by omega

/-- A VGM-command interpreter that sums the delays of the wait commands in a
command stream: `0x61 lo hi`, `0x62` (735), `0x63` (882), `0x7n` (n+1);
stops at the end marker `0x66`; skips the two operands of the register-write
commands (`0x5A`/`0x5E`/`0x5F`/`0xAA`). -/
def sumWaits : List Nat → Nat
  | [] => 0
  | b :: rest =>
    if b = 0x61 then
      match rest with
      | lo :: hi :: rest2 => lo + 256 * hi + sumWaits rest2
      | _ => 0
    else if b = 0x62 then 735 + sumWaits rest
    else if b = 0x63 then 882 + sumWaits rest
    else if 0x70 ≤ b ∧ b ≤ 0x7F then (b - 0x70 + 1) + sumWaits rest
    else if b = 0x66 then 0
    else
      match rest with
      | _ :: _ :: rest2 => sumWaits rest2
      | _ => 0

/-- Unfolding `sumWaits` on a `0x61 lo hi` wait. -/
theorem sumWaits_cons_61 (lo hi : Nat) (rest : List Nat) :
    sumWaits (0x61 :: lo :: hi :: rest) = lo + 256 * hi + sumWaits rest := rfl

theorem sumWaits_cons_62 (rest : List Nat) :
    sumWaits (0x62 :: rest) = 735 + sumWaits rest := by
  rw [sumWaits.eq_def]
  norm_num

theorem sumWaits_cons_63 (rest : List Nat) :
    sumWaits (0x63 :: rest) = 882 + sumWaits rest := by
  rw [sumWaits.eq_def]
  norm_num

theorem sumWaits_cons_wait_n (b : Nat) (rest : List Nat)
    (hb : 0x70 ≤ b ∧ b ≤ 0x7F) :
    sumWaits (b :: rest) = (b - 0x70 + 1) + sumWaits rest := by
  rw [sumWaits.eq_def]
  have h1 : ¬ b = 0x61 := by omega
  have h2 : ¬ b = 0x62 := by omega
  have h3 : ¬ b = 0x63 := by omega
  dsimp only
  rw [if_neg h1, if_neg h2, if_neg h3, if_pos hb]

/-- Register-write command opcodes are transparent to the wait interpreter. -/
theorem sumWaits_cons_writeCmd (c x y : Nat) (rest : List Nat)
    (h : c = 0x5A ∨ c = 0xAA ∨ c = 0x5E ∨ c = 0x5F) :
    sumWaits (c :: x :: y :: rest) = sumWaits rest := by
  rcases h with h | h | h | h <;> subst h <;> rfl

/-- The delays carried by `VGMOPL3::flushDelay`'s waits sum to the flushed
pending count, compositionally in the following stream. -/
theorem sumWaits_flushDelayBytes (p : Nat) :
    ∀ rest, sumWaits (flushDelayBytes p ++ rest) = p + sumWaits rest := by
  induction p using Nat.strong_induction_on with
  | _ p ih =>
    intro rest
    rw [flushDelayBytes]
    by_cases hp : p = 0
    · simp [hp]
    · simp only [hp, if_false]
      rw [List.cons_append, List.cons_append, List.cons_append,
        sumWaits_cons_61, ih (p - min p 65535) (by omega) rest]
      omega

/-- Every command `VGMOPL3::flushDelay` emits is a three-byte `0x61` wait:
the byte at every position divisible by 3 is the `0x61` opcode. -/
theorem flushDelayBytes_opcodes (p : Nat) :
    ∀ i, i < (flushDelayBytes p).length → i % 3 = 0 →
      (flushDelayBytes p).getD i 0 = 0x61 := by
  induction p using Nat.strong_induction_on with
  | _ p ih =>
    intro i hi hmod
    rw [flushDelayBytes] at hi ⊢
    by_cases hp : p = 0
    · simp [hp] at hi
    · simp only [hp, if_false] at hi ⊢
      match i, hmod with
      | 0, _ => rfl
      | 1, h => omega
      | 2, h => omega
      | (j + 3), h =>
        simp only [List.length_cons] at hi
        have := ih (p - min p 65535) (by omega) j (by omega) (by omega)
        simpa using this

/-! ### C4 / C5 — capture-session runs -/

/-- The operations a capture session performs on a `CVgmOpl` between
construction and `generateVgm`. -/
inductive OplOp where
  | write (reg val : Nat)
  | advance (samples : Nat)
  | setchip (n : Nat)
  | init
  | markLoop
  | setLoop (idx pos : Nat)
  deriving Repr, DecidableEq

def CVgmOpl.applyOp (s : CVgmOpl) : OplOp → CVgmOpl
  | .write r v => s.write r v
  | .advance n => s.advanceSamples n
  | .setchip n => s.setchip n
  | .init => s.init
  | .markLoop => s.markLoopPoint
  | .setLoop i p => s.setLoopPoint i p

/-- A capture session: the fresh chip driven by a list of operations. -/
def CVgmOpl.run (s : CVgmOpl) (ops : List OplOp) : CVgmOpl :=
  ops.foldl CVgmOpl.applyOp s

/-- Total of the per-write delay fields. -/
def delaySum (ws : List OplWrite) : Nat := (ws.map (·.delay_samples)).sum

/-- Session invariant: `total_samples_` is the (wrapped) sum of the delay
fields of the buffered writes. -/
def CVgmOpl.DelayInv (s : CVgmOpl) : Prop :=
  s.total_samples = delaySum s.writes % 2 ^ 32

/-- `CVgmOpl::write` either drops the write (buffer and counters untouched)
or appends exactly one event carrying the pending delay. -/
theorem CVgmOpl.write_cases (s : CVgmOpl) (r v : Nat) :
    ((s.write r v).total_samples = s.total_samples ∧
      (s.write r v).writes = s.writes ∧
      (s.write r v).pending_samples = s.pending_samples) ∨
    ((s.write r v).total_samples = (s.total_samples + s.pending_samples) % 2 ^ 32 ∧
      (s.write r v).writes =
        s.writes ++ [⟨s.pending_samples, r % 65536, v % 256, s.currChip % 256⟩] ∧
      (s.write r v).pending_samples = 0) := by
  unfold CVgmOpl.write
  dsimp only
  by_cases hcond : (s.reg_written (if 0x100 ≤ r then 1 else s.currChip) (r % 256) = true ∧
      s.reg_state (if 0x100 ≤ r then 1 else s.currChip) (r % 256) = v % 256 ∧
      ¬ ((0xA0 ≤ r % 256 ∧ r % 256 ≤ 0xBF) ∨ (0x40 ≤ r % 256 ∧ r % 256 ≤ 0x55)))
  · rw [if_pos hcond]; exact Or.inl ⟨rfl, rfl, rfl⟩
  · rw [if_neg hcond]; exact Or.inr ⟨rfl, rfl, rfl⟩

theorem CVgmOpl.delayInv_applyOp (s : CVgmOpl) (op : OplOp)
    (h : s.DelayInv) : (s.applyOp op).DelayInv := by
  cases op with
  | write r v =>
    show (s.write r v).DelayInv
    rcases s.write_cases r v with ⟨ht, hw, _⟩ | ⟨ht, hw, _⟩
    · rw [CVgmOpl.DelayInv, ht, hw]; exact h
    · rw [CVgmOpl.DelayInv, ht, hw, h, delaySum, delaySum]
      simp only [List.map_append, List.sum_append, List.map_cons,
        List.map_nil, List.sum_cons, List.sum_nil]
      simp
  | advance n => exact h
  | setchip n => exact h
  | init => exact h
  | markLoop =>
    show (s.markLoopPoint).DelayInv
    unfold CVgmOpl.markLoopPoint
    split <;> exact h
  | setLoop i p =>
    show (s.setLoopPoint i p).DelayInv
    unfold CVgmOpl.setLoopPoint
    split <;> exact h

theorem CVgmOpl.delayInv_run (ops : List OplOp) :
    ∀ (s : CVgmOpl), s.DelayInv → (s.run ops).DelayInv := by
  induction ops with
  | nil => intro s h; exact h
  | cons op rest ih =>
    intro s h
    exact ih (s.applyOp op) (s.delayInv_applyOp op h)

/-- The waits emitted by `CVgmOpl::writeVgmDelay` sum to the encoded delay,
compositionally in the following command stream. -/
theorem sumWaits_writeVgmDelay (n : Nat) :
    ∀ rest, sumWaits (writeVgmDelay n ++ rest) = n + sumWaits rest := by
  induction n using Nat.strong_induction_on with
  | _ n ih =>
    intro rest
    rw [writeVgmDelay]
    by_cases h0 : n = 0
    · simp [h0]
    · rw [if_neg h0]
      by_cases h735 : n = 735
      · rw [if_pos h735, List.singleton_append, sumWaits_cons_62, h735]
      · rw [if_neg h735]
        by_cases h882 : n = 882
        · rw [if_pos h882, List.singleton_append, sumWaits_cons_63, h882]
        · rw [if_neg h882]
          by_cases h16 : n ≤ 16
          · rw [if_pos h16, List.singleton_append]
            have h4 : 0x70 ≤ 0x70 + (n - 1) ∧ 0x70 + (n - 1) ≤ 0x7F := by omega
            rw [sumWaits_cons_wait_n _ _ h4]
            omega
          · rw [if_neg h16]
            dsimp only
            have hm1 : 1 ≤ min n 65535 := by omega
            rw [List.cons_append, List.cons_append, List.cons_append]
            rw [sumWaits_cons_61, ih (n - min n 65535) (by omega) rest]
            omega

/-- Register-write commands contribute no delay to the stream. -/
theorem sumWaits_vgmCommandBytes (dt : ChipType) (w : OplWrite) (rest : List Nat) :
    sumWaits (vgmCommandBytes dt w ++ rest) = sumWaits rest := by
  cases dt with
  | TYPE_OPL2 =>
    rw [show vgmCommandBytes .TYPE_OPL2 w = [0x5A, w.reg % 256, w.val] from rfl]
    exact sumWaits_cons_writeCmd _ _ _ rest (by omega)
  | TYPE_DUAL_OPL2 =>
    by_cases hc : w.chip = 0
    · rw [show vgmCommandBytes .TYPE_DUAL_OPL2 w =
        (if w.chip = 0 then [0x5A, w.reg % 256, w.val]
          else [0xAA, w.reg % 256, w.val]) from rfl, if_pos hc]
      exact sumWaits_cons_writeCmd _ _ _ rest (by omega)
    · rw [show vgmCommandBytes .TYPE_DUAL_OPL2 w =
        (if w.chip = 0 then [0x5A, w.reg % 256, w.val]
          else [0xAA, w.reg % 256, w.val]) from rfl, if_neg hc]
      exact sumWaits_cons_writeCmd _ _ _ rest (by omega)
  | TYPE_OPL3 =>
    by_cases hr : 0x100 ≤ w.reg
    · rw [show vgmCommandBytes .TYPE_OPL3 w =
        (if 0x100 ≤ w.reg then [0x5F, w.reg % 256, w.val]
          else [0x5E, w.reg % 256, w.val]) from rfl, if_pos hr]
      exact sumWaits_cons_writeCmd _ _ _ rest (by omega)
    · rw [show vgmCommandBytes .TYPE_OPL3 w =
        (if 0x100 ≤ w.reg then [0x5F, w.reg % 256, w.val]
          else [0x5E, w.reg % 256, w.val]) from rfl, if_neg hr]
      exact sumWaits_cons_writeCmd _ _ _ rest (by omega)

/-- The waits in the body emitted by `writeVgmData` sum to the total of the
buffered delay fields, for any trailer. -/
theorem sumWaits_writeVgmDataAux (dt : ChipType) (marked : Bool) (loopIdx : Nat)
    (ws : List OplWrite) :
    ∀ (i curLen acc : Nat) (trailer : List Nat),
      sumWaits ((writeVgmDataAux dt marked loopIdx ws i curLen acc).1 ++ trailer) =
        delaySum ws + sumWaits trailer := by
  induction ws with
  | nil => intro i curLen acc trailer; simp [writeVgmDataAux, delaySum]
  | cons w rest ih =>
    intro i curLen acc trailer
    rw [writeVgmDataAux]
    dsimp only
    rw [List.append_assoc, List.append_assoc]
    by_cases hd : 0 < w.delay_samples
    · rw [if_pos hd, sumWaits_writeVgmDelay, sumWaits_vgmCommandBytes, ih]
      rw [delaySum, delaySum]
      simp only [List.map_cons, List.sum_cons]
      omega
    · rw [if_neg hd, List.nil_append, sumWaits_vgmCommandBytes, ih]
      rw [delaySum, delaySum]
      simp only [List.map_cons, List.sum_cons]
      omega

theorem length_writeVgmHeader (dt : ChipType) : (writeVgmHeader dt).length = 0x100 := by
  cases dt <;>
    simp only [writeVgmHeader, length_setU32le, List.length_replicate]

theorem sumWaits_end_marker (g : List Nat) : sumWaits (0x66 :: g) = 0 := by
  rw [sumWaits.eq_def]
  norm_num

theorem getU32le_replicate_zero (n off : Nat) :
    getU32le (List.replicate n 0) off = 0 := by
  have h : ∀ i, (List.replicate n (0 : Nat)).getD i 0 = 0 := by
    intro i
    simp [List.getD_eq_getElem?_getD, List.getElem?_replicate]
    split <;> simp
  simp [getU32le, h]

theorem getU32le_writeVgmHeader_zero (dt : ChipType) (off : Nat)
    (h1C : 0x0C ≤ off) (h2C : off + 4 ≤ 0x34) :
    getU32le (writeVgmHeader dt) off = 0 := by
  cases dt <;>
    (unfold writeVgmHeader
     rw [getU32le_setU32le_disjoint _ _ _ _ (by omega),
       getU32le_setU32le_disjoint _ _ _ _ (by omega),
       getU32le_setU32le_disjoint _ _ _ _ (by omega),
       getU32le_setU32le_disjoint _ _ _ _ (by omega),
       getU32le_replicate_zero])

/-- Length of the pre-back-patch buffer: header + body + end marker
(+ GD3 bytes). -/
theorem length_vgmPreHeader (s : CVgmOpl) (gd3 : Option (List Nat)) :
    (s.vgmPreHeader gd3).length =
      0x100 + s.vgmBody.length + 1 + (gd3.getD []).length := by
  cases gd3 with
  | none =>
    simp [CVgmOpl.vgmPreHeader, length_writeVgmHeader]
    omega
  | some g =>
    simp [CVgmOpl.vgmPreHeader, length_setU32le, length_writeVgmHeader]
    omega

theorem drop_vgmPreHeader (s : CVgmOpl) (gd3 : Option (List Nat)) :
    (s.vgmPreHeader gd3).drop 0x100 = s.vgmBody ++ 0x66 :: (gd3.getD []) := by
  have hh : (writeVgmHeader s.detectChipType).length = 0x100 :=
    length_writeVgmHeader _
  cases gd3 with
  | none =>
    unfold CVgmOpl.vgmPreHeader
    rw [List.append_assoc, ← hh, List.drop_left]
    rfl
  | some g =>
    unfold CVgmOpl.vgmPreHeader
    rw [List.drop_append_of_le_length (by
      rw [length_setU32le]
      simp only [List.length_append, List.length_cons, List.length_nil, hh]
      omega)]
    rw [drop_setU32le _ _ _ _ (by omega), List.append_assoc, ← hh,
      List.drop_left, List.append_assoc]
    simp

/-- Reading a header dword below 0x34 (other than the patched offsets)
through `vgmPreHeader` sees the zeroed header. -/
theorem getU32le_vgmPreHeader_zero (s : CVgmOpl) (gd3 : Option (List Nat))
    (off : Nat) (h1 : 0x0C ≤ off) (h2 : off + 4 ≤ 0x34)
    (h3 : off + 4 ≤ 0x14 ∨ 0x18 ≤ off) :
    getU32le (s.vgmPreHeader gd3) off = 0 := by
  have hh : (writeVgmHeader s.detectChipType).length = 0x100 :=
    length_writeVgmHeader _
  cases gd3 with
  | none =>
    unfold CVgmOpl.vgmPreHeader
    rw [List.append_assoc, getU32le_append_left _ _ _ (by omega)]
    exact getU32le_writeVgmHeader_zero _ _ h1 h2
  | some g =>
    unfold CVgmOpl.vgmPreHeader
    rw [getU32le_append_left _ _ _ (by
      rw [length_setU32le]
      simp only [List.length_append, List.length_cons, List.length_nil, hh]
      omega)]
    rw [getU32le_setU32le_disjoint _ _ _ _ (by omega)]
    rw [List.append_assoc, getU32le_append_left _ _ _ (by omega)]
    exact getU32le_writeVgmHeader_zero _ _ h1 h2

/-- The back-patched header fields of `CVgmOpl::generateVgm`, and the wait
content of its command body. -/
theorem CVgmOpl.generateVgm_fields (s : CVgmOpl) (gd3 : Option (List Nat)) :
    getU32le (s.generateVgm gd3) 0x04 =
      ((s.generateVgm gd3).length - 0x04) % 2 ^ 32 ∧
    getU32le (s.generateVgm gd3) 0x18 =
      (s.total_samples + s.pending_samples) % 2 ^ 32 ∧
    sumWaits ((s.generateVgm gd3).drop 0x100) = delaySum s.writes ∧
    (s.loop_point_marked = true → 0 < s.loopByteOffset →
      getU32le (s.generateVgm gd3) 0x20 =
        ((s.total_samples + s.pending_samples) % 2 ^ 32 + 2 ^ 32 -
          s.loop_sample_pos % 2 ^ 32) % 2 ^ 32) ∧
    (¬ (s.loop_point_marked = true ∧ 0 < s.loopByteOffset) →
      getU32le (s.generateVgm gd3) 0x1C = 0 ∧
      getU32le (s.generateVgm gd3) 0x20 = 0) := by
  have hlen2 : 0x101 ≤ (s.vgmPreHeader gd3).length := by
    rw [length_vgmPreHeader]; omega
  have hdrop3 :
      (setU32le (setU32le (s.vgmPreHeader gd3) 0x04 ((s.vgmPreHeader gd3).length - 0x04))
        0x18 ((s.total_samples + s.pending_samples) % 2 ^ 32)).drop 0x100 =
      s.vgmBody ++ 0x66 :: (gd3.getD []) := by
    rw [drop_setU32le _ _ _ _ (by omega), drop_setU32le _ _ _ _ (by omega),
      drop_vgmPreHeader]
  have hsum : sumWaits (s.vgmBody ++ 0x66 :: (gd3.getD [])) = delaySum s.writes := by
    rw [CVgmOpl.vgmBody, sumWaits_writeVgmDataAux, sumWaits_end_marker]
    omega
  unfold CVgmOpl.generateVgm
  dsimp only
  by_cases hloop : (s.loop_point_marked = true ∧ 0 < s.loopByteOffset)
  · rw [if_pos hloop]
    refine ⟨?_, ?_, ?_, ?_, ?_⟩
    · rw [getU32le_setU32le_disjoint _ _ _ _ (by omega),
        getU32le_setU32le_disjoint _ _ _ _ (by omega),
        getU32le_setU32le_disjoint _ _ _ _ (by omega),
        getU32le_setU32le_self _ _ _ (by omega)]
      simp only [length_setU32le]
    · rw [getU32le_setU32le_disjoint _ _ _ _ (by omega),
        getU32le_setU32le_disjoint _ _ _ _ (by omega),
        getU32le_setU32le_self _ _ _ (by
          simp only [length_setU32le]; omega)]
      exact Nat.mod_mod_of_dvd _ (dvd_refl _)
    · rw [drop_setU32le _ _ _ _ (by omega), drop_setU32le _ _ _ _ (by omega),
        hdrop3]
      exact hsum
    · intro _ _
      rw [getU32le_setU32le_self _ _ _ (by
        simp only [length_setU32le]; omega)]
    · intro hc; exact absurd hloop hc
  · rw [if_neg hloop]
    refine ⟨?_, ?_, ?_, ?_, ?_⟩
    · rw [getU32le_setU32le_disjoint _ _ _ _ (by omega),
        getU32le_setU32le_self _ _ _ (by omega)]
      simp only [length_setU32le]
    · rw [getU32le_setU32le_self _ _ _ (by
        simp only [length_setU32le]; omega)]
      exact Nat.mod_mod_of_dvd _ (dvd_refl _)
    · rw [hdrop3]
      exact hsum
    · intro h1 h2; exact absurd ⟨h1, h2⟩ hloop
    · intro _
      constructor
      · rw [getU32le_setU32le_disjoint _ _ _ _ (by omega),
          getU32le_setU32le_disjoint _ _ _ _ (by omega)]
        exact getU32le_vgmPreHeader_zero s gd3 0x1C (by omega) (by omega) (by omega)
      · rw [getU32le_setU32le_disjoint _ _ _ _ (by omega),
          getU32le_setU32le_disjoint _ _ _ _ (by omega)]
        exact getU32le_vgmPreHeader_zero s gd3 0x20 (by omega) (by omega) (by omega)

/-- Operations a MIDI capture session performs on a `VGMOPL3` between
construction and `finalize`. -/
inductive VOp where
  | writeReg (addr data : Nat)
  | accumulate (samples : Nat)
  deriving Repr, DecidableEq

def VGMOPL3.applyOp (s : VGMOPL3) : VOp → VGMOPL3
  | .writeReg a d => s.writeReg a d
  | .accumulate n => s.accumulateDelay n

def VGMOPL3.run (s : VGMOPL3) (ops : List VOp) : VGMOPL3 :=
  ops.foldl VGMOPL3.applyOp s

/-- Streaming-chip invariant: the buffer holds the 128-byte header followed
by a command body whose waits sum (compositionally) to a delay total `S`
with `total_samples_ = S % 2 ^ 32`. -/
def VGMOPL3.WaitInv (s : VGMOPL3) : Prop :=
  128 ≤ s.vgm_buffer.length ∧
  ∃ S, (∀ rest, sumWaits (s.vgm_buffer.drop 128 ++ rest) = S + sumWaits rest) ∧
    s.total_samples = S % 2 ^ 32

theorem VGMOPL3.waitInv_flushDelay (s : VGMOPL3) (h : s.WaitInv) :
    s.flushDelay.WaitInv ∧
      s.flushDelay.total_samples = (s.total_samples + s.pending_samples) % 2 ^ 32 ∧
      s.flushDelay.pending_samples = 0 := by
  obtain ⟨hlen, S, hS, ht⟩ := h
  unfold VGMOPL3.flushDelay
  by_cases hp : s.pending_samples = 0
  · rw [if_pos hp]
    refine ⟨⟨hlen, S, hS, ht⟩, ?_, hp⟩
    rw [hp, Nat.add_zero, ht]
    exact (Nat.mod_mod_of_dvd _ (dvd_refl _)).symm
  · rw [if_neg hp]
    refine ⟨⟨?_, S + s.pending_samples, ?_, ?_⟩, rfl, rfl⟩
    · simp only [List.length_append]; omega
    · intro rest
      rw [List.drop_append_of_le_length hlen, List.append_assoc,
        hS (flushDelayBytes s.pending_samples ++ rest),
        sumWaits_flushDelayBytes]
      omega
    · show (s.total_samples + s.pending_samples) % 2 ^ 32 =
        (S + s.pending_samples) % 2 ^ 32
      rw [ht, Nat.mod_add_mod]

theorem VGMOPL3.waitInv_applyOp (s : VGMOPL3) (op : VOp) (h : s.WaitInv) :
    (s.applyOp op).WaitInv := by
  cases op with
  | accumulate n => exact h
  | writeReg a d =>
    show (s.writeReg a d).WaitInv
    unfold VGMOPL3.writeReg
    by_cases hcond : s.reg_state (a &&& 0x1FF) = d % 256
    · rw [if_pos hcond]; exact h
    · rw [if_neg hcond]
      dsimp only
      have h1 : ({ s with reg_state := fun i =>
          if i = (a &&& 0x1FF) then d % 256 else s.reg_state i } : VGMOPL3).WaitInv := h
      obtain ⟨⟨hlen, S, hS, ht⟩, _, _⟩ := VGMOPL3.waitInv_flushDelay _ h1
      refine ⟨by simp only [List.length_append]; omega, S, ?_, ht⟩
      intro rest
      rw [List.drop_append_of_le_length hlen, List.append_assoc]
      rw [hS ([if a &&& 0x100 ≠ 0 then 0x5F else 0x5E, a % 256, d % 256] ++ rest)]
      have : sumWaits ([if a &&& 0x100 ≠ 0 then 0x5F else 0x5E, a % 256, d % 256] ++ rest) =
          sumWaits rest := by
        by_cases hb : a &&& 0x100 ≠ 0
        · rw [if_pos hb]
          exact sumWaits_cons_writeCmd _ _ _ rest (by omega)
        · rw [if_neg hb]
          exact sumWaits_cons_writeCmd _ _ _ rest (by omega)
      rw [this]

set_option maxRecDepth 4000 in
theorem VGMOPL3.waitInv_initial : VGMOPL3.initial.WaitInv := by
  refine ⟨by decide, 0, ?_, by decide⟩
  intro rest
  have hdrop : VGMOPL3.initial.vgm_buffer.drop 128 =
      [0x5E, 0x04, 96, 0x5E, 0x04, 128, 0x5F, 0x05, 1, 0x5F, 0x05, 0,
       0x5E, 0x01, 32, 0x5F, 0x05, 1] := by decide
  rw [hdrop]
  rw [show ([0x5E, 0x04, 96, 0x5E, 0x04, 128, 0x5F, 0x05, 1, 0x5F, 0x05, 0,
       0x5E, 0x01, 32, 0x5F, 0x05, 1] : List Nat) ++ rest =
    0x5E :: 0x04 :: 96 :: (0x5E :: 0x04 :: 128 :: (0x5F :: 0x05 :: 1 ::
      (0x5F :: 0x05 :: 0 :: (0x5E :: 0x01 :: 32 :: (0x5F :: 0x05 :: 1 ::
        rest))))) from rfl]
  rw [sumWaits_cons_writeCmd _ _ _ _ (by omega),
    sumWaits_cons_writeCmd _ _ _ _ (by omega),
    sumWaits_cons_writeCmd _ _ _ _ (by omega),
    sumWaits_cons_writeCmd _ _ _ _ (by omega),
    sumWaits_cons_writeCmd _ _ _ _ (by omega),
    sumWaits_cons_writeCmd _ _ _ _ (by omega)]
  omega

theorem VGMOPL3.waitInv_run (ops : List VOp) :
    ∀ (s : VGMOPL3), s.WaitInv → (s.run ops).WaitInv := by
  induction ops with
  | nil => intro s h; exact h
  | cons op rest ih => intro s h; exact ih (s.applyOp op) (s.waitInv_applyOp op h)

/-- The back-patched header fields of `VGMOPL3::finalize`: EOF offset and a
total-samples dword equal (mod `2 ^ 32`) to the sum of the emitted waits —
here the trailing pending delay is flushed into the stream first, so the
equality with the emitted waits is exact. -/
theorem VGMOPL3.finalize_fields (ops : List VOp) (gd3 : Option (List Nat)) :
    getU32le ((VGMOPL3.run VGMOPL3.initial ops).finalize gd3) 0x04 =
      (((VGMOPL3.run VGMOPL3.initial ops).finalize gd3).length - 0x04) % 2 ^ 32 ∧
    getU32le ((VGMOPL3.run VGMOPL3.initial ops).finalize gd3) 0x18 =
      sumWaits (((VGMOPL3.run VGMOPL3.initial ops).finalize gd3).drop 128) % 2 ^ 32 := by
  obtain ⟨hinv, ht, _⟩ :=
    VGMOPL3.waitInv_flushDelay _ (VGMOPL3.waitInv_run ops _ VGMOPL3.waitInv_initial)
  obtain ⟨hlen, S, hS, htot⟩ := hinv
  unfold VGMOPL3.finalize
  dsimp only
  rcases gd3 with _ | g
  all_goals dsimp only
  · constructor
    · rw [getU32le_setU32le_disjoint _ _ _ _ (by omega),
        getU32le_setU32le_self _ _ _ (by simp only [List.length_append]; omega)]
      simp only [length_setU32le]
    · rw [getU32le_setU32le_self _ _ _ (by
        simp only [length_setU32le, List.length_append]; omega)]
      rw [drop_setU32le _ _ _ _ (by omega), drop_setU32le _ _ _ _ (by omega)]
      rw [List.drop_append_of_le_length hlen]
      rw [hS [0x66], sumWaits_end_marker, htot]
      rw [Nat.add_zero]
      exact Nat.mod_mod_of_dvd S (dvd_refl _)
  · constructor
    · rw [getU32le_setU32le_disjoint _ _ _ _ (by omega),
        getU32le_setU32le_self _ _ _ (by
          simp only [List.length_append, length_setU32le]; omega)]
      simp only [length_setU32le]
    · rw [getU32le_setU32le_self _ _ _ (by
        simp only [length_setU32le, List.length_append]; omega)]
      rw [drop_setU32le _ _ _ _ (by omega), drop_setU32le _ _ _ _ (by omega)]
      rw [List.drop_append_of_le_length (by
        rw [length_setU32le]; simp only [List.length_append]; omega)]
      rw [drop_setU32le _ _ _ _ (by omega)]
      rw [List.drop_append_of_le_length hlen, List.append_assoc]
      rw [hS ([0x66] ++ g)]
      rw [show ([0x66] ++ g : List Nat) = 0x66 :: g from rfl, sumWaits_end_marker,
        htot, Nat.add_zero]
      exact Nat.mod_mod_of_dvd S (dvd_refl _)

set_option maxRecDepth 2000 in
/-- C3, counterexample: a 735-sample delay flushed through
`VGMOPL3::flushDelay` is emitted as the three bytes `0x61 0xDF 0x02`, not as
the single NTSC shortcut byte `0x62` required by the claimed priority
order. -/
theorem c3_counterexample_flush_735 : flushDelayBytes 735 ≠ [0x62] := by
  rw [flushDelayBytes]
  norm_num

/-- C3 (amended): the buffered writer's `CVgmOpl::writeVgmDelay` follows
exactly the claimed priority order (735 → `0x62`; 882 → `0x63`; 1–16 →
`0x70 + (n-1)`; ≤ 65535 → `0x61 lo hi`; else `0x61 0xFF 0xFF`, subtract
65535, repeat), proved as a refinement against a definition transcribed from
the spec's words; the streaming writer's `VGMOPL3::flushDelay` instead
always emits plain `0x61 lo hi` waits in chunks of at most 65535 samples —
every opcode it emits is `0x61`, and the emitted waits still sum to the
flushed delay. -/
theorem c3_delay_encoding :
    (∀ n, writeVgmDelay n = specDelayEncoding n) ∧
    (∀ p rest, sumWaits (flushDelayBytes p ++ rest) = p + sumWaits rest) ∧
    (∀ p i, i < (flushDelayBytes p).length → i % 3 = 0 →
      (flushDelayBytes p).getD i 0 = 0x61) := by
  refine ⟨?_, sumWaits_flushDelayBytes, flushDelayBytes_opcodes⟩
  intro n
  induction n using Nat.strong_induction_on with
  | _ n ih =>
    rw [writeVgmDelay, specDelayEncoding]
    by_cases h0 : n = 0
    · rw [if_pos h0, if_pos h0]
    · rw [if_neg h0, if_neg h0]
      by_cases h735 : n = 735
      · rw [if_pos h735, if_pos h735]
      · rw [if_neg h735, if_neg h735]
        by_cases h882 : n = 882
        · rw [if_pos h882, if_pos h882]
        · rw [if_neg h882, if_neg h882]
          by_cases h16 : n ≤ 16
          · rw [if_pos h16, if_pos (show 1 ≤ n ∧ n ≤ 16 from ⟨by omega, h16⟩)]
          · rw [if_neg h16, if_neg (show ¬ (1 ≤ n ∧ n ≤ 16) from by omega)]
            by_cases h65535 : n ≤ 65535
            · have hmin : min n 65535 = n := by omega
              rw [if_pos h65535]
              dsimp only
              rw [hmin, Nat.sub_self, writeVgmDelay]
              simp
            · have hmin : min n 65535 = 65535 := by omega
              rw [if_neg h65535]
              dsimp only
              rw [hmin, ih (n - 65535) (by omega)]

/-- Witness for `c3_delay_encoding`: the opcode-position property applied at
a concrete flushed delay of 735 samples, position 0. -/
theorem c3_delay_encoding_witness :
    (flushDelayBytes 735).getD 0 0 = 0x61 :=
  c3_delay_encoding.2.2 735 0 (by rw [flushDelayBytes]; norm_num) (by norm_num)

set_option maxRecDepth 40000 in
/-- C4, counterexample: a session with one register write followed by five
trailing samples of delay.  `generateVgm` adds the trailing pending samples
into the total-samples dword at 0x18 (value 5), but never emits them as a
wait command, so the command body's waits sum to 0. -/
theorem c4_counterexample_trailing_delay :
    getU32le ((CVgmOpl.initial.run [.write 0xB0 1, .advance 5]).generateVgm none)
        0x18 ≠
      sumWaits (((CVgmOpl.initial.run [.write 0xB0 1, .advance 5]).generateVgm
        none).drop 0x100) := by
  decide

/-- C4 (amended): after finalisation the dword at 0x04 equals the file size
minus 4 (as a `uint32_t`).  The total-samples dword at 0x18 equals, mod
`2 ^ 32`, the sum of the delays emitted as wait commands in the command body
*plus* any samples still pending when `generateVgm` runs — `CVgmOpl` never
flushes the trailing delay into the stream.  When a loop point exists and
its byte offset is nonzero, the dword at 0x20 equals total samples minus the
loop sample position.  For the streaming chip, `VGMOPL3::finalize` flushes
the pending delay first, so its 0x18 dword equals the emitted waits' sum
exactly (mod `2 ^ 32`). -/
theorem c4_header_backpatch :
    (∀ (ops : List OplOp) (gd3 : Option (List Nat)),
      getU32le ((CVgmOpl.initial.run ops).generateVgm gd3) 0x04 =
        (((CVgmOpl.initial.run ops).generateVgm gd3).length - 0x04) % 2 ^ 32 ∧
      getU32le ((CVgmOpl.initial.run ops).generateVgm gd3) 0x18 =
        (sumWaits (((CVgmOpl.initial.run ops).generateVgm gd3).drop 0x100) +
          (CVgmOpl.initial.run ops).pending_samples) % 2 ^ 32 ∧
      ((CVgmOpl.initial.run ops).loop_point_marked = true →
        0 < (CVgmOpl.initial.run ops).loopByteOffset →
        (CVgmOpl.initial.run ops).loop_sample_pos ≤
          ((CVgmOpl.initial.run ops).total_samples +
            (CVgmOpl.initial.run ops).pending_samples) % 2 ^ 32 →
        getU32le ((CVgmOpl.initial.run ops).generateVgm gd3) 0x20 =
          ((CVgmOpl.initial.run ops).total_samples +
            (CVgmOpl.initial.run ops).pending_samples) % 2 ^ 32 -
            (CVgmOpl.initial.run ops).loop_sample_pos)) ∧
    (∀ (vops : List VOp) (gd3 : Option (List Nat)),
      getU32le ((VGMOPL3.initial.run vops).finalize gd3) 0x04 =
        (((VGMOPL3.initial.run vops).finalize gd3).length - 0x04) % 2 ^ 32 ∧
      getU32le ((VGMOPL3.initial.run vops).finalize gd3) 0x18 =
        sumWaits (((VGMOPL3.initial.run vops).finalize gd3).drop 128) % 2 ^ 32) := by
  constructor
  · intro ops gd3
    obtain ⟨h04, h18, hsum, h20, _⟩ :=
      (CVgmOpl.initial.run ops).generateVgm_fields gd3
    have hinv : (CVgmOpl.initial.run ops).DelayInv :=
      CVgmOpl.delayInv_run ops CVgmOpl.initial rfl
    refine ⟨h04, ?_, ?_⟩
    · rw [h18, hsum, hinv]
      rw [Nat.mod_add_mod]
    · intro hm hoff hle
      rw [h20 hm hoff]
      have hp : (2 : Nat) ^ 32 = 4294967296 := by norm_num
      rw [hp] at hle ⊢
      omega
  · intro vops gd3
    exact VGMOPL3.finalize_fields vops gd3

set_option maxRecDepth 40000 in
/-- Witness for `c4_header_backpatch`: a session that sets a loop point at
write 0 / sample 0 and then performs one write; all three loop-clause
hypotheses hold and the 0x20 dword equals `total - 0`. -/
theorem c4_header_backpatch_witness :
    getU32le ((CVgmOpl.initial.run [.setLoop 0 0, .write 0xB0 1]).generateVgm none)
        0x20 =
      ((CVgmOpl.initial.run [.setLoop 0 0, .write 0xB0 1]).total_samples +
        (CVgmOpl.initial.run [.setLoop 0 0, .write 0xB0 1]).pending_samples) %
          2 ^ 32 -
        (CVgmOpl.initial.run [.setLoop 0 0, .write 0xB0 1]).loop_sample_pos :=
  (c4_header_backpatch.1 [.setLoop 0 0, .write 0xB0 1] none).2.2
    (by decide) (by decide) (by decide)

/-! ### C5 — the native-OPL driver loop with loop discovery

Embedding of the conversion loop of `convert_native_opl`
(src/unified_converter.cpp, lines 1146-1226).  The upstream AdPlug player is
external; it is modelled as a trace of ticks, one per `player->update()`
call: `ord` is `player->getorder()` read at the top of the loop, `ops` the
register writes and chip selections the player performs on the capture chip
during `update()`, `samples` the integer sample count produced by the
fractional accumulator for this tick, `still` the return value of
`update()`, and `endOrd` the value of `player->getorder()` read after a
finishing update. -/

/-- Operations an AdPlug player performs on its `Copl` during `update()`. -/
inductive PlayerOp where
  | write (reg val : Nat)
  | setchip (n : Nat)
  deriving Repr, DecidableEq

def PlayerOp.toOplOp : PlayerOp → OplOp
  | .write r v => .write r v
  | .setchip n => .setchip n

structure Tick where
  ord : Nat
  ops : List PlayerOp
  samples : Nat
  still : Bool
  endOrd : Nat
  deriving Repr, DecidableEq

structure DriverState where
  chip : CVgmOpl
  firstOcc : List (Nat × (Nat × Nat))
  samples_generated : Nat

/-- The first-occurrence recording step: `first_occurrence[curr_order] =
{samples_generated, vgm_opl.getWriteCount()}` when loop-once capture is on
and the order has not been seen. -/
def recordOrder (loop_once : Bool) (st : DriverState) (o : Nat) :
    List (Nat × (Nat × Nat)) :=
  if loop_once && (List.lookup o st.firstOcc).isNone then
    st.firstOcc ++ [(o, (st.samples_generated, st.chip.writes.length))]
  else st.firstOcc

/-- The conversion `while` loop.  Each iteration checks the sample budget,
records the first occurrence of the current order, lets the player update
(running its register writes into the capture chip), advances the sample
clock, and on a finishing update performs the regression check and looks up
the loop target, publishing it to the chip via `setLoopPoint`. -/
def driveLoop (loop_once : Bool) (max_samples : Nat) :
    DriverState → List Tick → DriverState
  | st, [] => st
  | st, t :: rest =>
    if st.samples_generated < max_samples then
      let fo := recordOrder loop_once st t.ord
      let chip1 := (st.chip.run (t.ops.map PlayerOp.toOplOp)).advanceSamples t.samples
      let sg := st.samples_generated + t.samples
      if t.still then
        driveLoop loop_once max_samples ⟨chip1, fo, sg⟩ rest
      else
        if t.endOrd < t.ord ∨ (t.endOrd = 0 ∧ 0 < t.ord) then
          if loop_once then
            match List.lookup t.endOrd fo with
            | some (sp, wi) => ⟨chip1.setLoopPoint wi sp, fo, sg⟩
            | none => ⟨chip1, fo, sg⟩
          else ⟨chip1, fo, sg⟩
        else ⟨chip1, fo, sg⟩
    else st

/-- Player operations never touch the chip's loop-point fields. -/
theorem CVgmOpl.run_playerOps_loop (s : CVgmOpl) (ops : List PlayerOp) :
    (s.run (ops.map PlayerOp.toOplOp)).loop_point_marked = s.loop_point_marked ∧
    (s.run (ops.map PlayerOp.toOplOp)).loop_write_index = s.loop_write_index ∧
    (s.run (ops.map PlayerOp.toOplOp)).loop_sample_pos = s.loop_sample_pos := by
  induction ops generalizing s with
  | nil => exact ⟨rfl, rfl, rfl⟩
  | cons op rest ih =>
    have hstep : ∀ (u : CVgmOpl),
        (u.applyOp op.toOplOp).loop_point_marked = u.loop_point_marked ∧
        (u.applyOp op.toOplOp).loop_write_index = u.loop_write_index ∧
        (u.applyOp op.toOplOp).loop_sample_pos = u.loop_sample_pos := by
      intro u
      cases op with
      | write r v =>
        show ((u.write r v).loop_point_marked = u.loop_point_marked ∧
          (u.write r v).loop_write_index = u.loop_write_index ∧
          (u.write r v).loop_sample_pos = u.loop_sample_pos)
        unfold CVgmOpl.write
        dsimp only
        by_cases hcond : (u.reg_written (if 0x100 ≤ r then 1 else u.currChip) (r % 256) = true ∧
            u.reg_state (if 0x100 ≤ r then 1 else u.currChip) (r % 256) = v % 256 ∧
            ¬ ((0xA0 ≤ r % 256 ∧ r % 256 ≤ 0xBF) ∨ (0x40 ≤ r % 256 ∧ r % 256 ≤ 0x55)))
        · rw [if_pos hcond]; exact ⟨rfl, rfl, rfl⟩
        · rw [if_neg hcond]; exact ⟨rfl, rfl, rfl⟩
      | setchip n => exact ⟨rfl, rfl, rfl⟩
    show ((s.applyOp op.toOplOp).run (rest.map PlayerOp.toOplOp)).loop_point_marked = _ ∧ _
    obtain ⟨h1, h2, h3⟩ := hstep s
    obtain ⟨g1, g2, g3⟩ := ih (s.applyOp op.toOplOp)
    exact ⟨g1.trans h1, g2.trans h2, g3.trans h3⟩

theorem lookup_append_left {o : Nat} {l l2 : List (Nat × (Nat × Nat))}
    {v : Nat × Nat} (h : List.lookup o l = some v) :
    List.lookup o (l ++ l2) = some v := by
  induction l with
  | nil => simp [List.lookup] at h
  | cons p rest ih =>
    obtain ⟨k, b⟩ := p
    rw [List.cons_append]
    by_cases hk : (o == k) = true
    · simp only [List.lookup, hk] at h ⊢
      exact h
    · simp only [List.lookup, hk, Bool.false_eq_true] at h ⊢
      exact ih h

/-- Once an order has a first-occurrence entry, no later iteration of the
driver loop replaces it (`first_occurrence` is insert-if-absent). -/
theorem driveLoop_lookup_mono (lo : Bool) (max : Nat) (ticks : List Tick) :
    ∀ (st : DriverState) (o : Nat) (v : Nat × Nat),
      List.lookup o st.firstOcc = some v →
      List.lookup o (driveLoop lo max st ticks).firstOcc = some v := by
  induction ticks with
  | nil => intro st o v h; exact h
  | cons t rest ih =>
    intro st o v h
    have hrec : List.lookup o (recordOrder lo st t.ord) = some v := by
      unfold recordOrder
      split
      · exact lookup_append_left h
      · exact h
    rw [driveLoop]
    dsimp only
    by_cases hb : st.samples_generated < max
    · rw [if_pos hb]
      by_cases hstill : t.still = true
      · rw [if_pos hstill]
        exact ih _ o v hrec
      · rw [if_neg hstill]
        by_cases hreg : (t.endOrd < t.ord ∨ (t.endOrd = 0 ∧ 0 < t.ord))
        · rw [if_pos hreg]
          by_cases hlo : lo = true
          · rw [if_pos hlo]
            cases hlk : List.lookup t.endOrd (recordOrder lo st t.ord) with
            | some p =>
              obtain ⟨sp, wi⟩ := p
              simp only [hlk]
              exact hrec
            | none =>
              simp only [hlk]
              exact hrec
          · rw [if_neg hlo]
            exact hrec
        · rw [if_neg hreg]
          exact hrec
    · rw [if_neg hb]
      exact h

/-- C5, counterexample: the claim asserts that every driver-loop run records
the first occurrence of the player's order position before each tick, but
the driver records (and publishes) only when loop-once capture
(`opts.loop_once`) is enabled: with it disabled, a run over a tick at order
3 leaves the first-occurrence table empty. -/
theorem c5_counterexample_no_recording_without_loop_once :
    List.lookup 3 ((driveLoop false 1000 ⟨CVgmOpl.initial, [], 0⟩
      [⟨3, [], 10, true, 3⟩]).firstOcc) = none := by
  decide

/-- C5 (amended): for driver-loop runs with loop-once capture enabled (the
default): (a) an order position not seen before is recorded, before the
player advances, as the pair (current sample count, current write count),
and the loop continues on the so-extended table; (b) a recorded entry is
never overwritten by later iterations, so entries are first occurrences;
(c) when the player reports finished and its new position regresses
(strictly smaller, or zero from nonzero), the loop point published via
`setLoopPoint` is exactly the recorded pair for the target position; and
(d) a session whose chip never received a loop point finalises with zero
loop-offset and loop-samples dwords (no loop). -/
theorem c5_loop_discovery :
    (∀ (max : Nat) (st : DriverState) (t : Tick) (rest : List Tick),
      st.samples_generated < max →
      List.lookup t.ord st.firstOcc = none →
      t.still = true →
      driveLoop true max st (t :: rest) =
        driveLoop true max
          ⟨(st.chip.run (t.ops.map PlayerOp.toOplOp)).advanceSamples t.samples,
            st.firstOcc ++ [(t.ord, (st.samples_generated, st.chip.writes.length))],
            st.samples_generated + t.samples⟩ rest) ∧
    (∀ (lo : Bool) (max : Nat) (ticks : List Tick) (st : DriverState)
        (o : Nat) (v : Nat × Nat),
      List.lookup o st.firstOcc = some v →
      List.lookup o (driveLoop lo max st ticks).firstOcc = some v) ∧
    (∀ (max : Nat) (st : DriverState) (t : Tick) (rest : List Tick) (sp wi : Nat),
      st.samples_generated < max →
      t.still = false →
      (t.endOrd < t.ord ∨ (t.endOrd = 0 ∧ 0 < t.ord)) →
      st.chip.loop_point_marked = false →
      List.lookup t.endOrd (recordOrder true st t.ord) = some (sp, wi) →
      (driveLoop true max st (t :: rest)).chip.loop_point_marked = true ∧
      (driveLoop true max st (t :: rest)).chip.loop_write_index = wi ∧
      (driveLoop true max st (t :: rest)).chip.loop_sample_pos = sp) ∧
    (∀ (s : CVgmOpl) (gd3 : Option (List Nat)),
      s.loop_point_marked = false →
      getU32le (s.generateVgm gd3) 0x1C = 0 ∧
      getU32le (s.generateVgm gd3) 0x20 = 0) := by
  refine ⟨?_, driveLoop_lookup_mono, ?_, ?_⟩
  · intro max st t rest hb hnew hstill
    rw [driveLoop]
    dsimp only
    rw [if_pos hb, if_pos hstill]
    have hrec : recordOrder true st t.ord =
        st.firstOcc ++ [(t.ord, (st.samples_generated, st.chip.writes.length))] := by
      unfold recordOrder
      rw [if_pos (by simp [hnew])]
    rw [hrec]
  · intro max st t rest sp wi hb hstill hreg hunmarked hfound
    have hstill' : ¬ (t.still = true) := by simp [hstill]
    rw [driveLoop]
    dsimp only
    rw [if_pos hb, if_neg hstill', if_pos hreg, if_pos rfl]
    rw [show (match List.lookup t.endOrd (recordOrder true st t.ord) with
        | some (sp, wi) =>
          (⟨((st.chip.run (t.ops.map PlayerOp.toOplOp)).advanceSamples
              t.samples).setLoopPoint wi sp, recordOrder true st t.ord,
            st.samples_generated + t.samples⟩ : DriverState)
        | none =>
          ⟨(st.chip.run (t.ops.map PlayerOp.toOplOp)).advanceSamples t.samples,
            recordOrder true st t.ord, st.samples_generated + t.samples⟩) =
      (⟨((st.chip.run (t.ops.map PlayerOp.toOplOp)).advanceSamples
          t.samples).setLoopPoint wi sp, recordOrder true st t.ord,
        st.samples_generated + t.samples⟩ : DriverState) from by rw [hfound]]
    obtain ⟨hm, _, _⟩ := st.chip.run_playerOps_loop t.ops
    have hm1 : ((st.chip.run (t.ops.map PlayerOp.toOplOp)).advanceSamples
        t.samples).loop_point_marked = false := by
      show (st.chip.run (t.ops.map PlayerOp.toOplOp)).loop_point_marked = false
      rw [hm, hunmarked]
    unfold CVgmOpl.setLoopPoint
    rw [if_neg (by rw [hm1]; exact Bool.false_ne_true)]
    exact ⟨rfl, rfl, rfl⟩
  · intro s gd3 hm
    exact (s.generateVgm_fields gd3).2.2.2.2 (by
      intro hc
      rw [hm] at hc
      exact Bool.false_ne_true hc.1)

/-- Witness for `c5_loop_discovery`: a finishing tick regressing from order
3 to order 2, whose first sighting was recorded at sample 0 / write 0; the
published loop point is that pair. -/
theorem c5_loop_discovery_witness :
    (driveLoop true 100 ⟨CVgmOpl.initial, [(2, (0, 0))], 5⟩
      [⟨3, [], 0, false, 2⟩]).chip.loop_point_marked = true ∧
    (driveLoop true 100 ⟨CVgmOpl.initial, [(2, (0, 0))], 5⟩
      [⟨3, [], 0, false, 2⟩]).chip.loop_write_index = 0 ∧
    (driveLoop true 100 ⟨CVgmOpl.initial, [(2, (0, 0))], 5⟩
      [⟨3, [], 0, false, 2⟩]).chip.loop_sample_pos = 0 :=
  c5_loop_discovery.2.2.1 100 ⟨CVgmOpl.initial, [(2, (0, 0))], 5⟩
    ⟨3, [], 0, false, 2⟩ [] 0 0 (by decide) (by decide) (by decide) (by decide)
    (by decide)

/-! ### C7 — gzip wrap / unwrap

Embedding of `gzipCompress` and `gzipDecompress`
(src/unified_converter.cpp, lines 271-344 and 192-267).  The raw-deflate
codec itself is the external miniz/zlib library; it is abstracted as a pair
of functions `deflate`/`inflate` passed in as parameters, with the codec's
inverse property taken as a hypothesis where needed. -/

/-- `gzipCompress`: empty input yields the empty error result; otherwise a
10-byte gzip header (no flags), the raw-deflate body, then CRC32 and
original size, both as little-endian `uint32_t`. -/
def gzipCompress (deflate : List Nat → List Nat) (crc32 : List Nat → Nat)
    (data : List Nat) : List Nat :=
  if data = [] then []
  else
    [0x1f, 0x8b, 0x08, 0x00, 0x00, 0x00, 0x00, 0x00, 0x00, 0xff] ++
      deflate data ++ u32leBytes (crc32 data) ++ u32leBytes data.length

/-- The FNAME / FCOMMENT scan: advance past bytes until a NUL (or the end of
the buffer), then skip the terminator. -/
def skipNulTerminated (data : List Nat) (pos : Nat) : Nat :=
  if _h : pos < data.length then
    if data.getD pos 0 ≠ 0 then skipNulTerminated data (pos + 1) else pos + 1
  else pos + 1
termination_by data.length - pos

/-- Header-size computation of `gzipDecompress`, honouring the FEXTRA,
FNAME, FCOMMENT and FHCRC flag bits; `none` models the early
`return {}` when FEXTRA overruns the buffer. -/
def gzipHeaderSize (data : List Nat) : Option Nat :=
  let flags := data.getD 3 0
  let step1 : Option Nat :=
    if flags &&& 0x04 ≠ 0 then
      if data.length < 10 + 2 then none
      else some (10 + 2 + (data.getD 10 0 ||| data.getD 11 0 <<< 8))
    else some 10
  match step1 with
  | none => none
  | some hs1 =>
    let hs2 := if flags &&& 0x08 ≠ 0 then skipNulTerminated data hs1 else hs1
    let hs3 := if flags &&& 0x10 ≠ 0 then skipNulTerminated data hs2 else hs2
    some (if flags &&& 0x02 ≠ 0 then hs3 + 2 else hs3)

/-- `gzipDecompress`: magic check, trailer-size read with the 64-MiB cap,
header skip, raw inflate into a buffer preallocated at the trailer size
(an inflate result shorter than the buffer leaves the zero tail in place;
a longer one fails with `MZ_BUF_ERROR`). -/
def gzipDecompress (inflate : List Nat → Option (List Nat))
    (data : List Nat) : List Nat :=
  if data.length < 18 then []
  else if ¬ (data.getD 0 0 = 0x1f ∧ data.getD 1 0 = 0x8b) then []
  else
    let orig_size := data.getD (data.length - 4) 0 |||
      data.getD (data.length - 3) 0 <<< 8 |||
      data.getD (data.length - 2) 0 <<< 16 |||
      data.getD (data.length - 1) 0 <<< 24
    if 64 * 1024 * 1024 < orig_size then []
    else
      match gzipHeaderSize data with
      | none => []
      | some header_size =>
        if data.length - 8 ≤ header_size then []
        else
          match inflate ((data.drop header_size).take
              (data.length - header_size - 8)) with
          | none => []
          | some out =>
            if out.length ≤ orig_size then
              out ++ List.replicate (orig_size - out.length) 0
            else []

theorem lor4_u32leBytes (n : Nat) :
    n % 256 ||| (n / 256 % 256) <<< 8 ||| (n / 65536 % 256) <<< 16 |||
      (n / 16777216 % 256) <<< 24 = n % 2 ^ 32 := by
  have h1 : n % 256 ||| (n / 256 % 256) <<< 8 = n % 256 + n / 256 % 256 * 2 ^ 8 :=
    lor_shiftLeft_eq_add (n % 256) (n / 256 % 256) 8 (by omega)
  have b1 : n % 256 + n / 256 % 256 * 2 ^ 8 < 2 ^ 16 := by
    have := Nat.mod_lt (n / 256) (show 0 < 256 by omega)
    omega
  have h2 : n % 256 + n / 256 % 256 * 2 ^ 8 ||| (n / 65536 % 256) <<< 16 =
      n % 256 + n / 256 % 256 * 2 ^ 8 + n / 65536 % 256 * 2 ^ 16 :=
    lor_shiftLeft_eq_add _ (n / 65536 % 256) 16 b1
  have b2 : n % 256 + n / 256 % 256 * 2 ^ 8 + n / 65536 % 256 * 2 ^ 16 < 2 ^ 24 := by
    have := Nat.mod_lt (n / 65536) (show 0 < 256 by omega)
    omega
  have h3 : n % 256 + n / 256 % 256 * 2 ^ 8 + n / 65536 % 256 * 2 ^ 16 |||
      (n / 16777216 % 256) <<< 24 =
      n % 256 + n / 256 % 256 * 2 ^ 8 + n / 65536 % 256 * 2 ^ 16 +
        n / 16777216 % 256 * 2 ^ 24 :=
    lor_shiftLeft_eq_add _ (n / 16777216 % 256) 24 b2
  rw [h1, h2, h3]
  omega

theorem getD_append_right_len (l m : List Nat) (i : Nat) :
    (l ++ m).getD (l.length + i) 0 = m.getD i 0 := by
  simp [List.getD_eq_getElem?_getD, List.getElem?_append_right (Nat.le_add_right _ _)]

/-- Unwrapping a well-formed flag-free gzip container: 10-byte header `H`,
nonempty deflate body `D`, 4-byte CRC field `C`, and a little-endian size
trailer matching the inflated output. -/
theorem gzipDecompress_wrapped (inflate : List Nat → Option (List Nat))
    (D C out : List Nat) (n : Nat)
    (hD : 1 ≤ D.length) (hC : C.length = 4) (hn : n ≤ 64 * 1024 * 1024)
    (hinf : inflate D = some out) (hout : out.length = n) :
    gzipDecompress inflate
      ([0x1f, 0x8b, 0x08, 0x00, 0x00, 0x00, 0x00, 0x00, 0x00, 0xff] ++
        (D ++ (C ++ u32leBytes n))) = out := by
  have hH : ([0x1f, 0x8b, 0x08, 0x00, 0x00, 0x00, 0x00, 0x00, 0x00, 0xff] :
      List Nat).length = 10 := rfl
  have hS : (u32leBytes n).length = 4 := rfl
  have hfl : ([0x1f, 0x8b, 0x08, 0x00, 0x00, 0x00, 0x00, 0x00, 0x00, 0xff] ++
      (D ++ (C ++ u32leBytes n))).length = 18 + D.length := by
    simp only [List.length_append, hH, hS, hC]
    omega
  have hgetlow : ∀ i, i < 10 →
      ([0x1f, 0x8b, 0x08, 0x00, 0x00, 0x00, 0x00, 0x00, 0x00, 0xff] ++
        (D ++ (C ++ u32leBytes n))).getD i 0 =
      ([0x1f, 0x8b, 0x08, 0x00, 0x00, 0x00, 0x00, 0x00, 0x00, 0xff] :
        List Nat).getD i 0 := by
    intro i hi
    exact getD_append_left _ _ i (by rw [hH]; omega)
  have htr : ∀ i,
      ([0x1f, 0x8b, 0x08, 0x00, 0x00, 0x00, 0x00, 0x00, 0x00, 0xff] ++
        (D ++ (C ++ u32leBytes n))).getD (14 + D.length + i) 0 =
      (u32leBytes n).getD i 0 := by
    intro i
    have e1 : 14 + D.length + i = 10 + (D.length + (4 + i)) := by omega
    rw [e1, ← hH, getD_append_right_len, getD_append_right_len, ← hC,
      getD_append_right_len]
  rw [gzipDecompress]
  rw [if_neg (by rw [hfl]; omega)]
  rw [if_neg (not_not_intro ⟨by rw [hgetlow 0 (by omega)]; rfl,
    by rw [hgetlow 1 (by omega)]; rfl⟩)]
  have horig :
      ([0x1f, 0x8b, 0x08, 0x00, 0x00, 0x00, 0x00, 0x00, 0x00, 0xff] ++
        (D ++ (C ++ u32leBytes n))).getD
          (([0x1f, 0x8b, 0x08, 0x00, 0x00, 0x00, 0x00, 0x00, 0x00, 0xff] ++
            (D ++ (C ++ u32leBytes n))).length - 4) 0 |||
      (([0x1f, 0x8b, 0x08, 0x00, 0x00, 0x00, 0x00, 0x00, 0x00, 0xff] ++
        (D ++ (C ++ u32leBytes n))).getD
          (([0x1f, 0x8b, 0x08, 0x00, 0x00, 0x00, 0x00, 0x00, 0x00, 0xff] ++
            (D ++ (C ++ u32leBytes n))).length - 3) 0) <<< 8 |||
      (([0x1f, 0x8b, 0x08, 0x00, 0x00, 0x00, 0x00, 0x00, 0x00, 0xff] ++
        (D ++ (C ++ u32leBytes n))).getD
          (([0x1f, 0x8b, 0x08, 0x00, 0x00, 0x00, 0x00, 0x00, 0x00, 0xff] ++
            (D ++ (C ++ u32leBytes n))).length - 2) 0) <<< 16 |||
      (([0x1f, 0x8b, 0x08, 0x00, 0x00, 0x00, 0x00, 0x00, 0x00, 0xff] ++
        (D ++ (C ++ u32leBytes n))).getD
          (([0x1f, 0x8b, 0x08, 0x00, 0x00, 0x00, 0x00, 0x00, 0x00, 0xff] ++
            (D ++ (C ++ u32leBytes n))).length - 1) 0) <<< 24 = n := by
    have e4 : ([0x1f, 0x8b, 0x08, 0x00, 0x00, 0x00, 0x00, 0x00, 0x00, 0xff] ++
        (D ++ (C ++ u32leBytes n))).length - 4 = 14 + D.length + 0 := by
      rw [hfl]; omega
    have e3 : ([0x1f, 0x8b, 0x08, 0x00, 0x00, 0x00, 0x00, 0x00, 0x00, 0xff] ++
        (D ++ (C ++ u32leBytes n))).length - 3 = 14 + D.length + 1 := by
      rw [hfl]; omega
    have e2 : ([0x1f, 0x8b, 0x08, 0x00, 0x00, 0x00, 0x00, 0x00, 0x00, 0xff] ++
        (D ++ (C ++ u32leBytes n))).length - 2 = 14 + D.length + 2 := by
      rw [hfl]; omega
    have e1 : ([0x1f, 0x8b, 0x08, 0x00, 0x00, 0x00, 0x00, 0x00, 0x00, 0xff] ++
        (D ++ (C ++ u32leBytes n))).length - 1 = 14 + D.length + 3 := by
      rw [hfl]; omega
    rw [e4, e3, e2, e1, htr 0, htr 1, htr 2, htr 3]
    show n % 256 ||| (n / 256 % 256) <<< 8 ||| (n / 65536 % 256) <<< 16 |||
      (n / 16777216 % 256) <<< 24 = n
    rw [lor4_u32leBytes]
    omega
  rw [horig]
  rw [if_neg (by omega)]
  have hflags : ([0x1f, 0x8b, 0x08, 0x00, 0x00, 0x00, 0x00, 0x00, 0x00, 0xff] ++
      (D ++ (C ++ u32leBytes n))).getD 3 0 = 0 := by
    rw [hgetlow 3 (by omega)]; rfl
  have hhs : gzipHeaderSize ([0x1f, 0x8b, 0x08, 0x00, 0x00, 0x00, 0x00, 0x00,
      0x00, 0xff] ++ (D ++ (C ++ u32leBytes n))) = some 10 := by
    rw [gzipHeaderSize, hflags]
    norm_num
  rw [hhs]
  dsimp only
  rw [if_neg (by rw [hfl]; omega)]
  have hdrop : (([0x1f, 0x8b, 0x08, 0x00, 0x00, 0x00, 0x00, 0x00, 0x00, 0xff] ++
      (D ++ (C ++ u32leBytes n))).drop 10) = D ++ (C ++ u32leBytes n) := by
    rw [← hH, List.drop_left]
  have htake : ((D ++ (C ++ u32leBytes n)).take
      (([0x1f, 0x8b, 0x08, 0x00, 0x00, 0x00, 0x00, 0x00, 0x00, 0xff] ++
        (D ++ (C ++ u32leBytes n))).length - 10 - 8)) = D := by
    rw [hfl, show 18 + D.length - 10 - 8 = D.length from by omega, List.take_left]
  rw [hdrop, htake, hinf]
  dsimp only
  rw [if_pos (by omega)]
  rw [hout]
  simp

/-- C7: gzip wrapping followed by gzip unwrapping is the identity on every
byte sequence of at most 64 MiB.  The external raw-deflate codec is
abstracted as the `deflate`/`inflate` pair, assumed to round-trip the
payload and to produce at least one byte of compressed output (miniz's
`MZ_FINISH` always does); the stored CRC32 plays no role, as
`gzipDecompress` never verifies it. -/
theorem c7_gzip_roundtrip
    (deflate : List Nat → List Nat) (inflate : List Nat → Option (List Nat))
    (crc32 : List Nat → Nat) (data : List Nat)
    (hlen : data.length ≤ 64 * 1024 * 1024)
    (hinf : inflate (deflate data) = some data)
    (hdne : data ≠ [] → deflate data ≠ []) :
    gzipDecompress inflate (gzipCompress deflate crc32 data) = data := by
  by_cases hd : data = []
  · subst hd
    rw [gzipCompress, if_pos rfl, gzipDecompress, if_pos (by simp)]
  · rw [gzipCompress, if_neg hd]
    have hassoc : ([0x1f, 0x8b, 0x08, 0x00, 0x00, 0x00, 0x00, 0x00, 0x00, 0xff] ++
        deflate data ++ u32leBytes (crc32 data) ++ u32leBytes data.length) =
        [0x1f, 0x8b, 0x08, 0x00, 0x00, 0x00, 0x00, 0x00, 0x00, 0xff] ++
        (deflate data ++ (u32leBytes (crc32 data) ++ u32leBytes data.length)) := by
      simp [List.append_assoc]
    rw [hassoc]
    exact gzipDecompress_wrapped inflate (deflate data) (u32leBytes (crc32 data))
      data data.length (List.length_pos.mpr (hdne hd)) rfl hlen hinf rfl

/-- Witness for `c7_gzip_roundtrip`: the identity codec on the three-byte
sequence `[1, 2, 3]`. -/
theorem c7_gzip_roundtrip_witness :
    gzipDecompress (fun l => some l)
      (gzipCompress (fun l => l) (fun _ => 0) [1, 2, 3]) = [1, 2, 3] :=
  c7_gzip_roundtrip (fun l => l) (fun l => some l) (fun _ => 0) [1, 2, 3]
    (by decide) rfl (fun _ => by decide)

/-! ### C6: HMP to MIDI chunk-event loop (`convertHMPtoMIDI`, hmp_to_midi.cpp) -/

/-- `MIDIWriter::writeVarLen` packing loop: fold the remaining 7-bit groups of
`value` into the uint32 `buffer`, setting bit 7 of each shifted-in byte. -/
def midiVarLenPack : Nat → Nat → Nat → Nat
  | 0, _, buffer => buffer
  | fuel + 1, value, buffer =>
    let value2 := value / 128
    if 0 < value2 then
      midiVarLenPack fuel value2
        ((((buffer <<< 8) % 2 ^ 32 ||| 0x80) + value2 % 128) % 2 ^ 32)
    else buffer

/-- `MIDIWriter::writeVarLen` emission loop: emit the low byte of `buffer`,
continuing (after a byte-shift) while bit 7 of the emitted byte is set. -/
def midiVarLenEmit : Nat → Nat → List Nat
  | 0, _ => []
  | fuel + 1, buffer =>
    if buffer &&& 0x80 = 0 then [buffer % 256]
    else buffer % 256 :: midiVarLenEmit fuel (buffer / 256)

/-- Standard MIDI variable-length encoding (`MIDIWriter::writeVarLen`);
five rounds of fuel cover every uint32 value. -/
def midiVarLen (value : Nat) : List Nat :=
  midiVarLenEmit 5 (midiVarLenPack 5 value (value &&& 0x7F))

/-- `parseHMPEvent` (hmp_to_midi.cpp lines 126-210): returns
`(bytes_consumed, should_write, bytes emitted to the track writer)`. -/
def parseHMPEvent (data : List Nat) (pos status delta_time : Nat) :
    Nat × Bool × List Nat :=
  let size := data.length
  let st_hi := status &&& 0xF0
  if st_hi = 0x80 ∨ st_hi = 0x90 ∨ st_hi = 0xA0 ∨ st_hi = 0xB0 ∨ st_hi = 0xE0 then
    if size < pos + 2 then (0, true, [])
    else (2, true, midiVarLen delta_time ++
      [status, data.getD pos 0 &&& 0x7F, data.getD (pos + 1) 0 &&& 0x7F])
  else if st_hi = 0xC0 ∨ st_hi = 0xD0 then
    if size < pos + 1 then (0, true, [])
    else (1, true, midiVarLen delta_time ++ [status, data.getD pos 0 &&& 0x7F])
  else if st_hi = 0xF0 then
    if status = 0xFF then
      if size < pos + 1 then (0, true, [])
      else
        let meta_type := data.getD pos 0
        if meta_type = 0x2F then (3, true, midiVarLen delta_time ++ [status, 0x2F, 0x00])
        else if meta_type = 0x51 then (6, false, [])
        else (2, false, [])
    else (1, false, [])
  else (1, false, [])

/-- Per-chunk event-loop state of `convertHMPtoMIDI` (lines 332-416):
track cursor, chunk end, running times, running status, and the bytes the
loop has appended to the track writer. -/
structure ChunkState where
  chunk_pos : Nat
  chunk_end : Nat
  absolute_time : Nat
  prev_time : Nat
  running_status : Nat
  out : List Nat
  deriving DecidableEq

/-- Outcome of one iteration of the event loop: `continue` with a new state,
or `break` with the final state and the `has_end_marker` flag. -/
inductive StepRes where
  | cont (s : ChunkState)
  | stop (s : ChunkState) (endMarker : Bool)
  deriving DecidableEq

/-- Body of one event-loop iteration after the status byte has been
resolved: `pos` points past any consumed status byte and `running` is the
updated running status.  Mirrors lines 361-414: the Miles loop-marker filter
(controller 110/111 with value above 0x7F: skip two data bytes, read the
next delta into `absolute_time`, continue), otherwise parse and emit the
event, update `prev_time` only when it was written, stop on the end-of-track
meta, and read the next delta. -/
def stepWithStatus (data : List Nat) (s : ChunkState) (status pos running : Nat) :
    StepRes :=
  let size := data.length
  if status &&& 0xF0 = 0xB0 ∧ pos + 1 < size ∧
      (data.getD pos 0 = 110 ∨ data.getD pos 0 = 111) ∧
      0x7F < data.getD (pos + 1) 0 then
    if pos + 2 < s.chunk_end then
      let r := readHMPVarLen data (pos + 2)
      .cont { s with
        chunk_pos := r.2
        absolute_time := (s.absolute_time + r.1) % 2 ^ 32
        running_status := running }
    else
      .cont { s with
        chunk_pos := pos + 2
        running_status := running }
  else
    let delta_time := (2 ^ 32 + s.absolute_time - s.prev_time) % 2 ^ 32
    let r := parseHMPEvent data pos status delta_time
    if r.1 = 0 then
      .stop { s with
        chunk_pos := pos
        running_status := running } false
    else
      let pos3 := pos + r.1
      let prev2 := if r.2.1 then s.absolute_time else s.prev_time
      let out2 := s.out ++ r.2.2
      if status = 0xFF ∧ r.1 < pos3 ∧ data.getD (pos3 - r.1) 0 = 0x2F then
        .stop { s with
          chunk_pos := pos3
          prev_time := prev2
          running_status := running
          out := out2 } true
      else if pos3 < s.chunk_end then
        let r2 := readHMPVarLen data pos3
        .cont { s with
          chunk_pos := r2.2
          absolute_time := (s.absolute_time + r2.1) % 2 ^ 32
          prev_time := prev2
          running_status := running
          out := out2 }
      else
        .cont { s with
          chunk_pos := pos3
          prev_time := prev2
          running_status := running
          out := out2 }

/-- One full event-loop iteration (lines 344-414): resolve the status byte
(explicit when the cursor byte has bit 7 set, else the running status, else
break) and hand off to `stepWithStatus`. -/
def convertChunkStep (data : List Nat) (s : ChunkState) : StepRes :=
  let b := data.getD s.chunk_pos 0
  if 0x80 ≤ b then
    stepWithStatus data s b (s.chunk_pos + 1) b
  else if s.running_status ≠ 0 then
    stepWithStatus data s s.running_status s.chunk_pos s.running_status
  else
    .stop s false

/-- The event loop `while (chunk_pos < chunk_end && chunk_pos < hmp_size)`
with explicit fuel (the cursor strictly increases, so any fuel of at least
`chunk_end` steps is exact); returns the final state and `has_end_marker`. -/
def convertChunkLoop (data : List Nat) : Nat → ChunkState → ChunkState × Bool
  | 0, s => (s, false)
  | fuel + 1, s =>
    if s.chunk_pos < s.chunk_end ∧ s.chunk_pos < data.length then
      match convertChunkStep data s with
      | .cont s2 => convertChunkLoop data fuel s2
      | .stop s2 endMarker => (s2, endMarker)
    else (s, false)

/-- A chunk body run from its start: read the initial delta into
`absolute_time` (line 338) and enter the event loop. -/
def runChunk (data : List Nat) (chunk_end fuel : Nat) : ChunkState × Bool :=
  let r := readHMPVarLen data 0
  convertChunkLoop data fuel
    { chunk_pos := r.2
      chunk_end := chunk_end
      absolute_time := (0 + r.1) % 2 ^ 32
      prev_time := 0
      running_status := 0
      out := [] }

/-- C6: the Miles loop-marker filter.  First conjunct (general): whenever the
event loop is inside the chunk at an explicit control-change status byte
whose controller number is 110 or 111 and whose value exceeds 0x7F, the
iteration continues with NOTHING appended to the MIDI output and `prev_time`
unchanged: the two data bytes are skipped and the next delta is read and
accumulated into `absolute_time`, so the next emitted event's delta-time
(`absolute_time - prev_time`) is the sum of the deltas surrounding the
filtered event.  Second conjunct (the spec's concrete scenario): a chunk
with initial delta 0, the marker `B0 6E F0`, delta 3, then `90 40 40`
produces exactly the MIDI bytes `03 90 40 40` — no B0/6E event, and the
emitted delta 3 is the sum 0 + 3 of the deltas around the marker. -/
theorem c6_miles_filter :
    (∀ (data : List Nat) (s : ChunkState),
      s.chunk_pos < s.chunk_end →
      s.chunk_pos < data.length →
      0x80 ≤ data.getD s.chunk_pos 0 →
      data.getD s.chunk_pos 0 &&& 0xF0 = 0xB0 →
      s.chunk_pos + 2 < data.length →
      (data.getD (s.chunk_pos + 1) 0 = 110 ∨ data.getD (s.chunk_pos + 1) 0 = 111) →
      0x7F < data.getD (s.chunk_pos + 2) 0 →
      s.chunk_pos + 3 < s.chunk_end →
      convertChunkStep data s = .cont { s with
        chunk_pos := (readHMPVarLen data (s.chunk_pos + 3)).2
        absolute_time :=
          (s.absolute_time + (readHMPVarLen data (s.chunk_pos + 3)).1) % 2 ^ 32
        running_status := data.getD s.chunk_pos 0 }) ∧
    runChunk [0x80, 0xB0, 0x6E, 0xF0, 0x03, 0x80, 0x90, 0x40, 0x40] 9 9 =
      ({ chunk_pos := 9
         chunk_end := 9
         absolute_time := 3
         prev_time := 3
         running_status := 0x90
         out := [0x03, 0x90, 0x40, 0x40] }, false) := by
  constructor
  · intro data s _ _ hb hband hsz hcc hval hend
    unfold convertChunkStep
    dsimp only
    rw [if_pos hb]
    unfold stepWithStatus
    dsimp only
    rw [if_pos ⟨hband, by omega, hcc, hval⟩]
    rw [if_pos (show s.chunk_pos + 1 + 2 < s.chunk_end from by omega)]
  · decide

/-- Witness for `c6_miles_filter`: the general conjunct applied to the
five-byte chunk `B0 6E F0 03 80` at cursor 0. -/
theorem c6_miles_filter_witness :
    convertChunkStep [0xB0, 0x6E, 0xF0, 0x03, 0x80]
      { chunk_pos := 0
        chunk_end := 5
        absolute_time := 0
        prev_time := 0
        running_status := 0
        out := [] } = .cont
      { chunk_pos := 5
        chunk_end := 5
        absolute_time := 3
        prev_time := 0
        running_status := 0xB0
        out := [] } :=
  c6_miles_filter.1 [0xB0, 0x6E, 0xF0, 0x03, 0x80]
    { chunk_pos := 0
      chunk_end := 5
      absolute_time := 0
      prev_time := 0
      running_status := 0
      out := [] }
    (by decide) (by decide) (by decide) (by decide) (by decide) (Or.inl (by decide))
    (by decide) (by decide)

/-! ### C8: GD3 tag serialisation (`GD3Tag::serialize` / `GD3Tag::parse`,
gd3_tag.cpp).  The `std::codecvt_utf8_utf16` conversions used by
`utf8_to_utf16` / `utf16_to_utf8` are external library code, modelled here
by the standard UTF-8 and UTF-16 codecs over Unicode scalar values. -/

/-- Standard UTF-8 encoding of one code point (1 to 4 bytes). -/
def utf8EncodeChar (c : Nat) : List Nat :=
  if c < 0x80 then [c]
  else if c < 0x800 then [0xC0 + c / 64, 0x80 + c % 64]
  else if c < 0x10000 then [0xE0 + c / 4096, 0x80 + c / 64 % 64, 0x80 + c % 64]
  else [0xF0 + c / 262144, 0x80 + c / 4096 % 64, 0x80 + c / 64 % 64, 0x80 + c % 64]

/-- UTF-8 decoding to code points; `fuel` bounds the number of decoded
characters (one unit of fuel per character, so the byte length suffices). -/
def utf8DecodeGo : Nat → List Nat → Option (List Nat)
  | _, [] => some []
  | 0, _ :: _ => none
  | fuel + 1, b :: rest =>
    if b < 0x80 then (utf8DecodeGo fuel rest).map (fun cs => b :: cs)
    else if b < 0xC0 then none
    else if b < 0xE0 then
      match rest with
      | b1 :: rest1 =>
        if b1 / 64 = 2 then
          (utf8DecodeGo fuel rest1).map (fun cs => ((b - 0xC0) * 64 + (b1 - 0x80)) :: cs)
        else none
      | [] => none
    else if b < 0xF0 then
      match rest with
      | b1 :: b2 :: rest2 =>
        if b1 / 64 = 2 ∧ b2 / 64 = 2 then
          (utf8DecodeGo fuel rest2).map
            (fun cs => ((b - 0xE0) * 4096 + (b1 - 0x80) * 64 + (b2 - 0x80)) :: cs)
        else none
      | _ => none
    else if b < 0xF8 then
      match rest with
      | b1 :: b2 :: b3 :: rest3 =>
        if b1 / 64 = 2 ∧ b2 / 64 = 2 ∧ b3 / 64 = 2 then
          (utf8DecodeGo fuel rest3).map
            (fun cs => ((b - 0xF0) * 262144 + (b1 - 0x80) * 4096 +
              (b2 - 0x80) * 64 + (b3 - 0x80)) :: cs)
        else none
      | _ => none
    else none

/-- UTF-8 decoding of a byte string. -/
def utf8Decode (s : List Nat) : Option (List Nat) :=
  utf8DecodeGo s.length s

/-- Standard UTF-16 encoding of one code point (one unit, or a surrogate
pair for code points beyond the basic plane). -/
def utf16EncodeChar (c : Nat) : List Nat :=
  if c < 0x10000 then [c]
  else [0xD800 + (c - 0x10000) / 1024, 0xDC00 + (c - 0x10000) % 1024]

/-- UTF-16 decoding to code points; one unit of fuel per character. -/
def utf16DecodeGo : Nat → List Nat → Option (List Nat)
  | _, [] => some []
  | 0, _ :: _ => none
  | fuel + 1, u :: rest =>
    if u < 0xD800 ∨ 0xE000 ≤ u then (utf16DecodeGo fuel rest).map (fun cs => u :: cs)
    else if u < 0xDC00 then
      match rest with
      | u1 :: rest1 =>
        if 0xDC00 ≤ u1 ∧ u1 < 0xE000 then
          (utf16DecodeGo fuel rest1).map
            (fun cs => (0x10000 + (u - 0xD800) * 1024 + (u1 - 0xDC00)) :: cs)
        else none
      | [] => none
    else none

/-- UTF-16 decoding of a unit string. -/
def utf16Decode (u : List Nat) : Option (List Nat) :=
  utf16DecodeGo u.length u

/-- A Unicode scalar value: in range and not a surrogate. -/
def ScalarValue (c : Nat) : Prop :=
  c < 0x110000 ∧ (c < 0xD800 ∨ 0xE000 ≤ c)

theorem utf8EncodeChar_ne_nil (c : Nat) : utf8EncodeChar c ≠ [] := by
  unfold utf8EncodeChar
  by_cases h1 : c < 0x80
  · rw [if_pos h1]; simp
  · rw [if_neg h1]
    by_cases h2 : c < 0x800
    · rw [if_pos h2]; simp
    · rw [if_neg h2]
      by_cases h3 : c < 0x10000
      · rw [if_pos h3]; simp
      · rw [if_neg h3]; simp

theorem utf16EncodeChar_ne_nil (c : Nat) : utf16EncodeChar c ≠ [] := by
  unfold utf16EncodeChar
  by_cases h1 : c < 0x10000
  · rw [if_pos h1]; simp
  · rw [if_neg h1]; simp

theorem length_le_flatMap_of_ne_nil (f : Nat → List Nat)
    (hf : ∀ c, f c ≠ []) (cps : List Nat) :
    cps.length ≤ (cps.flatMap f).length := by
  induction cps with
  | nil => simp
  | cons c cps ih =>
    have h1 : 1 ≤ (f c).length := by
      have := hf c
      cases hfc : f c with
      | nil => exact absurd hfc this
      | cons x xs => simp
    simp only [List.flatMap_cons, List.length_append, List.length_cons]
    omega

theorem utf8DecodeGo_succ_cons (fuel b : Nat) (rest : List Nat) :
    utf8DecodeGo (fuel + 1) (b :: rest) =
    (if b < 0x80 then (utf8DecodeGo fuel rest).map (fun cs => b :: cs)
     else if b < 0xC0 then none
     else if b < 0xE0 then
       match rest with
       | b1 :: rest1 =>
         if b1 / 64 = 2 then
           (utf8DecodeGo fuel rest1).map (fun cs => ((b - 0xC0) * 64 + (b1 - 0x80)) :: cs)
         else none
       | [] => none
     else if b < 0xF0 then
       match rest with
       | b1 :: b2 :: rest2 =>
         if b1 / 64 = 2 ∧ b2 / 64 = 2 then
           (utf8DecodeGo fuel rest2).map
             (fun cs => ((b - 0xE0) * 4096 + (b1 - 0x80) * 64 + (b2 - 0x80)) :: cs)
         else none
       | _ => none
     else if b < 0xF8 then
       match rest with
       | b1 :: b2 :: b3 :: rest3 =>
         if b1 / 64 = 2 ∧ b2 / 64 = 2 ∧ b3 / 64 = 2 then
           (utf8DecodeGo fuel rest3).map
             (fun cs => ((b - 0xF0) * 262144 + (b1 - 0x80) * 4096 +
               (b2 - 0x80) * 64 + (b3 - 0x80)) :: cs)
         else none
       | _ => none
     else none) := rfl

/-- Decoding inverts encoding: UTF-8. -/
theorem utf8DecodeGo_flatMap (cps : List Nat) (fuel : Nat)
    (hfuel : cps.length ≤ fuel)
    (hs : ∀ c ∈ cps, c < 0x110000) :
    utf8DecodeGo fuel (cps.flatMap utf8EncodeChar) = some cps := by
  induction cps generalizing fuel with
  | nil =>
    rw [List.flatMap_nil]
    cases fuel <;> rfl
  | cons c cps ih =>
    obtain ⟨f, rfl⟩ : ∃ f, fuel = f + 1 :=
      ⟨fuel - 1, by simp at hfuel; omega⟩
    have hc : c < 0x110000 := hs c (List.mem_cons_self _ _)
    have hrest : utf8DecodeGo f (cps.flatMap utf8EncodeChar) = some cps :=
      ih f (by simp at hfuel; omega) (fun x hx => hs x (List.mem_cons_of_mem _ hx))
    by_cases h1 : c < 0x80
    · simp only [List.flatMap_cons, utf8EncodeChar, if_pos h1, List.singleton_append]
      rw [utf8DecodeGo_succ_cons, if_pos h1, hrest]
      rfl
    · by_cases h2 : c < 0x800
      · simp only [List.flatMap_cons, utf8EncodeChar, if_neg h1, if_pos h2,
          List.cons_append, List.nil_append]
        rw [utf8DecodeGo_succ_cons, if_neg (by omega), if_neg (by omega),
          if_pos (by omega)]
        dsimp only
        rw [if_pos (by omega), hrest]
        have hv : (0xC0 + c / 64 - 0xC0) * 64 + (0x80 + c % 64 - 0x80) = c := by omega
        rw [hv]
        rfl
      · by_cases h3 : c < 0x10000
        · simp only [List.flatMap_cons, utf8EncodeChar, if_neg h1, if_neg h2,
            if_pos h3, List.cons_append, List.nil_append]
          rw [utf8DecodeGo_succ_cons, if_neg (by omega), if_neg (by omega),
            if_neg (by omega), if_pos (by omega)]
          dsimp only
          rw [if_pos (by constructor <;> omega), hrest]
          have hv : (0xE0 + c / 4096 - 0xE0) * 4096 + (0x80 + c / 64 % 64 - 0x80) * 64 +
              (0x80 + c % 64 - 0x80) = c := by omega
          rw [hv]
          rfl
        · simp only [List.flatMap_cons, utf8EncodeChar, if_neg h1, if_neg h2,
            if_neg h3, List.cons_append, List.nil_append]
          rw [utf8DecodeGo_succ_cons, if_neg (by omega), if_neg (by omega),
            if_neg (by omega), if_neg (by omega), if_pos (by omega)]
          dsimp only
          rw [if_pos (by refine ⟨by omega, by omega, by omega⟩), hrest]
          have hv : (0xF0 + c / 262144 - 0xF0) * 262144 +
              (0x80 + c / 4096 % 64 - 0x80) * 4096 +
              (0x80 + c / 64 % 64 - 0x80) * 64 + (0x80 + c % 64 - 0x80) = c := by omega
          rw [hv]
          rfl

theorem utf16DecodeGo_succ_cons (fuel u : Nat) (rest : List Nat) :
    utf16DecodeGo (fuel + 1) (u :: rest) =
    (if u < 0xD800 ∨ 0xE000 ≤ u then (utf16DecodeGo fuel rest).map (fun cs => u :: cs)
     else if u < 0xDC00 then
       match rest with
       | u1 :: rest1 =>
         if 0xDC00 ≤ u1 ∧ u1 < 0xE000 then
           (utf16DecodeGo fuel rest1).map
             (fun cs => (0x10000 + (u - 0xD800) * 1024 + (u1 - 0xDC00)) :: cs)
         else none
       | [] => none
     else none) := rfl

/-- Decoding inverts encoding: UTF-16. -/
theorem utf16DecodeGo_flatMap (cps : List Nat) (fuel : Nat)
    (hfuel : cps.length ≤ fuel)
    (hs : ∀ c ∈ cps, ScalarValue c) :
    utf16DecodeGo fuel (cps.flatMap utf16EncodeChar) = some cps := by
  induction cps generalizing fuel with
  | nil =>
    rw [List.flatMap_nil]
    cases fuel <;> rfl
  | cons c cps ih =>
    obtain ⟨f, rfl⟩ : ∃ f, fuel = f + 1 :=
      ⟨fuel - 1, by simp at hfuel; omega⟩
    obtain ⟨hc1, hc2⟩ : ScalarValue c := hs c (List.mem_cons_self _ _)
    have hrest : utf16DecodeGo f (cps.flatMap utf16EncodeChar) = some cps :=
      ih f (by simp at hfuel; omega) (fun x hx => hs x (List.mem_cons_of_mem _ hx))
    by_cases h1 : c < 0x10000
    · simp only [List.flatMap_cons, utf16EncodeChar, if_pos h1, List.singleton_append]
      rw [utf16DecodeGo_succ_cons, if_pos (by omega), hrest]
      rfl
    · simp only [List.flatMap_cons, utf16EncodeChar, if_neg h1,
        List.cons_append, List.nil_append]
      rw [utf16DecodeGo_succ_cons, if_neg (by push_neg; constructor <;> omega),
        if_pos (by omega)]
      dsimp only
      rw [if_pos (by constructor <;> omega), hrest]
      have hv : 0x10000 + (0xD800 + (c - 0x10000) / 1024 - 0xD800) * 1024 +
          (0xDC00 + (c - 0x10000) % 1024 - 0xDC00) = c := by omega
      rw [hv]
      rfl

/-- `GD3Tag::utf8_to_utf16` (gd3_tag.cpp lines 33-58): decode UTF-8, encode
UTF-16; on conversion failure return the empty vector. -/
def utf8_to_utf16 (s : List Nat) : List Nat :=
  match utf8Decode s with
  | some cps => cps.flatMap utf16EncodeChar
  | none => []

/-- `GD3Tag::utf16_to_utf8` (gd3_tag.cpp lines 11-31): decode UTF-16, encode
UTF-8; on conversion failure return the empty string. -/
def utf16_to_utf8 (u : List Nat) : List Nat :=
  match utf16Decode u with
  | some cps => cps.flatMap utf8EncodeChar
  | none => []

/-- The GD3 tag: eleven UTF-8 byte strings in serialisation order. -/
structure GD3Tag where
  title_en : List Nat
  title : List Nat
  album_en : List Nat
  album : List Nat
  system_en : List Nat
  system : List Nat
  author_en : List Nat
  author : List Nat
  date : List Nat
  converted_by : List Nat
  notes : List Nat
  deriving DecidableEq

/-- The eleven fields in the order `serialize` and `parse` traverse them. -/
def GD3Tag.fields (t : GD3Tag) : List (List Nat) :=
  [t.title_en, t.title, t.album_en, t.album, t.system_en, t.system,
   t.author_en, t.author, t.date, t.converted_by, t.notes]

/-- One serialised field: UTF-16LE code units if the string is nonempty,
then the two-byte NUL terminator (serialize loop, lines 88-104). -/
def serializeField (f : List Nat) : List Nat :=
  (if f = [] then []
   else (utf8_to_utf16 f).flatMap (fun c => [c % 256, c / 256 % 256])) ++ [0x00, 0x00]

/-- `GD3Tag::serialize` (lines 60-114): magic `Gd3 `, version 1.00, the
back-patched little-endian length of the field data, then the fields. -/
def GD3Tag.serialize (t : GD3Tag) : List Nat :=
  let body := ((t.fields.map serializeField).flatten : List Nat)
  [0x47, 0x64, 0x33, 0x20, 0x00, 0x01, 0x00, 0x00] ++
    u32leBytes (body.length % 2 ^ 32) ++ body

/-- The field-reading loop of `GD3Tag::parse` (lines 152-162): read UTF-16LE
units until a NUL unit or fewer than two bytes remain; returns the units,
the rest of the buffer, and the remaining byte budget.  Fuel decreases once
per unit, so any fuel of at least `remaining` is exact. -/
def parseFieldChars : Nat → List Nat → Nat → List Nat × List Nat × Nat
  | 0, data, remaining => ([], data, remaining)
  | fuel + 1, data, remaining =>
    if 2 ≤ remaining then
      let ch := data.getD 0 0 ||| data.getD 1 0 <<< 8
      if ch = 0 then ([], data.drop 2, remaining - 2)
      else
        let r := parseFieldChars fuel (data.drop 2) (remaining - 2)
        (ch :: r.1, r.2.1, r.2.2)
    else ([], data, remaining)

/-- The per-field loop of `GD3Tag::parse` (lines 150-173) on a fresh tag:
read `n` fields, converting nonempty unit strings through `utf16_to_utf8`;
when fewer than two bytes remain the remaining fields stay empty. -/
def parseFieldsGo : Nat → List Nat → Nat → List (List Nat)
  | 0, _, _ => []
  | n + 1, data, remaining =>
    if 2 ≤ remaining then
      let r := parseFieldChars remaining data remaining
      (if r.1 ≠ [] then utf16_to_utf8 r.1 else []) :: parseFieldsGo n r.2.1 r.2.2
    else List.replicate (n + 1) []

/-- `GD3Tag::parse` (lines 116-176) on a fresh tag: check the 12-byte
header and the magic, read the little-endian data length, require the
buffer to contain it, then read the eleven fields. -/
def GD3Tag.parse (data : List Nat) : Option GD3Tag :=
  if data.length < 12 then none
  else if ¬ (data.getD 0 0 = 0x47 ∧ data.getD 1 0 = 0x64 ∧
      data.getD 2 0 = 0x33 ∧ data.getD 3 0 = 0x20) then none
  else
    let data_length := data.getD 8 0 ||| data.getD 9 0 <<< 8 |||
      data.getD 10 0 <<< 16 ||| data.getD 11 0 <<< 24
    if data.length < 12 + data_length then none
    else
      let fs := parseFieldsGo 11 (data.drop 12) data_length
      some ⟨fs.getD 0 [], fs.getD 1 [], fs.getD 2 [], fs.getD 3 [], fs.getD 4 [],
        fs.getD 5 [], fs.getD 6 [], fs.getD 7 [], fs.getD 8 [], fs.getD 9 [],
        fs.getD 10 []⟩

/-- A field the round trip can preserve: valid UTF-8 with no embedded NUL
character (a list of encoded nonzero Unicode scalar values). -/
def ValidField (f : List Nat) : Prop :=
  ∃ cps : List Nat, cps.flatMap utf8EncodeChar = f ∧
    ∀ c ∈ cps, 0 < c ∧ ScalarValue c

theorem parseFieldChars_succ (fuel : Nat) (data : List Nat) (remaining : Nat) :
    parseFieldChars (fuel + 1) data remaining =
    (if 2 ≤ remaining then
      if data.getD 0 0 ||| data.getD 1 0 <<< 8 = 0 then ([], data.drop 2, remaining - 2)
      else
        ((data.getD 0 0 ||| data.getD 1 0 <<< 8) ::
            (parseFieldChars fuel (data.drop 2) (remaining - 2)).1,
          (parseFieldChars fuel (data.drop 2) (remaining - 2)).2.1,
          (parseFieldChars fuel (data.drop 2) (remaining - 2)).2.2)
    else ([], data, remaining)) := rfl

/-- Reading back one field's units: the byte pairs of nonzero units below
2^16 decode to the units, consume their bytes plus the terminator, and leave
the rest. -/
theorem parseFieldChars_units (u : List Nat) (rest : List Nat) (k fuel : Nat)
    (hu : ∀ c ∈ u, 0 < c ∧ c < 65536)
    (hfuel : u.length + 1 ≤ fuel) :
    parseFieldChars fuel
      (u.flatMap (fun c => [c % 256, c / 256 % 256]) ++ 0 :: 0 :: rest)
      (2 * u.length + (2 + k)) = (u, rest, k) := by
  induction u generalizing fuel with
  | nil =>
    obtain ⟨f, rfl⟩ : ∃ f, fuel = f + 1 := ⟨fuel - 1, by omega⟩
    rw [List.flatMap_nil, List.nil_append, parseFieldChars_succ,
      if_pos (by omega)]
    simp
  | cons c u ih =>
    obtain ⟨f, rfl⟩ : ∃ f, fuel = f + 1 := ⟨fuel - 1, by simp at hfuel; omega⟩
    obtain ⟨hc0, hc16⟩ := hu c (List.mem_cons_self _ _)
    have hch : c % 256 ||| (c / 256 % 256) <<< 8 = c := by
      rw [lor_shiftLeft_eq_add _ _ 8 (by omega)]
      omega
    rw [List.flatMap_cons]
    simp only [List.cons_append, List.nil_append]
    rw [parseFieldChars_succ, if_pos (by omega)]
    simp only [List.getD_cons_zero, List.getD_cons_succ]
    rw [hch, if_neg (by omega)]
    have hdrop : ((c % 256 :: c / 256 % 256 ::
        (u.flatMap (fun c => [c % 256, c / 256 % 256]) ++ 0 :: 0 :: rest)).drop 2) =
        u.flatMap (fun c => [c % 256, c / 256 % 256]) ++ 0 :: 0 :: rest := rfl
    have harith : 2 * (c :: u).length + (2 + k) - 2 = 2 * u.length + (2 + k) := by
      simp
      omega
    rw [hdrop, harith,
      ih f (fun x hx => hu x (List.mem_cons_of_mem _ hx)) (by simp at hfuel; omega)]

theorem utf16EncodeChar_bounds (c : Nat) (h0 : 0 < c) (hsc : ScalarValue c) :
    ∀ x ∈ utf16EncodeChar c, 0 < x ∧ x < 65536 := by
  obtain ⟨h1, h2⟩ := hsc
  intro x hx
  unfold utf16EncodeChar at hx
  by_cases h : c < 0x10000
  · rw [if_pos h] at hx
    simp at hx
    omega
  · rw [if_neg h] at hx
    simp at hx
    rcases hx with h | h
    · exact ⟨by omega, by omega⟩
    · exact ⟨by omega, by omega⟩

theorem utf8_to_utf16_of_valid (cps : List Nat)
    (hs : ∀ c ∈ cps, 0 < c ∧ ScalarValue c) :
    utf8_to_utf16 (cps.flatMap utf8EncodeChar) = cps.flatMap utf16EncodeChar := by
  have hd : utf8Decode (cps.flatMap utf8EncodeChar) = some cps := by
    unfold utf8Decode
    exact utf8DecodeGo_flatMap cps _
      (length_le_flatMap_of_ne_nil utf8EncodeChar utf8EncodeChar_ne_nil cps)
      (fun c hc => (hs c hc).2.1)
  unfold utf8_to_utf16
  rw [hd]

theorem utf16_to_utf8_of_valid (cps : List Nat)
    (hs : ∀ c ∈ cps, 0 < c ∧ ScalarValue c) :
    utf16_to_utf8 (cps.flatMap utf16EncodeChar) = cps.flatMap utf8EncodeChar := by
  have hd : utf16Decode (cps.flatMap utf16EncodeChar) = some cps := by
    unfold utf16Decode
    exact utf16DecodeGo_flatMap cps _
      (length_le_flatMap_of_ne_nil utf16EncodeChar utf16EncodeChar_ne_nil cps)
      (fun c hc => (hs c hc).2)
  unfold utf16_to_utf8
  rw [hd]

theorem length_flatMap_pairs (u : List Nat) :
    (u.flatMap (fun c => [c % 256, c / 256 % 256])).length = 2 * u.length := by
  induction u with
  | nil => rfl
  | cons c u ih =>
    simp only [List.flatMap_cons, List.length_append, List.length_cons,
      List.length_nil, ih]
    omega

theorem parseFieldsGo_succ (n : Nat) (data : List Nat) (remaining : Nat) :
    parseFieldsGo (n + 1) data remaining =
    (if 2 ≤ remaining then
      (if (parseFieldChars remaining data remaining).1 ≠ [] then
          utf16_to_utf8 (parseFieldChars remaining data remaining).1 else []) ::
        parseFieldsGo n (parseFieldChars remaining data remaining).2.1
          (parseFieldChars remaining data remaining).2.2
    else List.replicate (n + 1) []) := rfl

/-- The eleven-field read-back: parsing the serialised fields of valid
NUL-free UTF-8 strings returns exactly those strings. -/
theorem parseFieldsGo_join (fs : List (List Nat)) (n : Nat) (hn : fs.length = n)
    (hv : ∀ f ∈ fs, ValidField f) :
    parseFieldsGo n ((fs.map serializeField).flatten)
      ((fs.map serializeField).flatten).length = fs := by
  induction fs generalizing n with
  | nil =>
    subst hn
    rfl
  | cons f fs ih =>
    subst hn
    obtain ⟨cps, henc, hcs⟩ := hv f (List.mem_cons_self _ _)
    have hu8 : utf8_to_utf16 f = cps.flatMap utf16EncodeChar := by
      rw [← henc]
      exact utf8_to_utf16_of_valid cps hcs
    have hub : ∀ x ∈ cps.flatMap utf16EncodeChar, 0 < x ∧ x < 65536 := by
      intro x hx
      obtain ⟨c, hc, hxc⟩ := List.mem_flatMap.mp hx
      exact utf16EncodeChar_bounds c (hcs c hc).1 (hcs c hc).2 x hxc
    have hsf : serializeField f =
        (cps.flatMap utf16EncodeChar).flatMap (fun c => [c % 256, c / 256 % 256]) ++
          [0x00, 0x00] := by
      by_cases hf : f = []
      · have hcpsnil : cps = [] := by
          rcases cps with _ | ⟨c, cps⟩
          · rfl
          · exfalso
            rw [List.flatMap_cons] at henc
            have := utf8EncodeChar_ne_nil c
            rw [hf] at henc
            rcases he : utf8EncodeChar c with _ | ⟨b, bs⟩
            · exact this he
            · rw [he] at henc
              simp at henc
        subst hcpsnil
        rw [serializeField, if_pos hf]
        rfl
      · rw [serializeField, if_neg hf, hu8]
    have hJ : (((f :: fs).map serializeField).flatten : List Nat) =
        serializeField f ++ (fs.map serializeField).flatten := rfl
    rw [hJ, hsf]
    have hassoc :
        ((cps.flatMap utf16EncodeChar).flatMap (fun c => [c % 256, c / 256 % 256]) ++
          [0x00, 0x00]) ++ (fs.map serializeField).flatten =
        (cps.flatMap utf16EncodeChar).flatMap (fun c => [c % 256, c / 256 % 256]) ++
          0 :: 0 :: (fs.map serializeField).flatten := by
      simp [List.append_assoc]
    rw [hassoc]
    have hlen :
        ((cps.flatMap utf16EncodeChar).flatMap (fun c => [c % 256, c / 256 % 256]) ++
          0 :: 0 :: (fs.map serializeField).flatten).length =
        2 * (cps.flatMap utf16EncodeChar).length +
          (2 + ((fs.map serializeField).flatten).length) := by
      simp only [List.length_append, List.length_cons, length_flatMap_pairs]
      omega
    simp only [List.length_cons]
    rw [hlen, parseFieldsGo_succ, if_pos (by omega)]
    rw [parseFieldChars_units (cps.flatMap utf16EncodeChar)
      ((fs.map serializeField).flatten) ((fs.map serializeField).flatten).length _
      hub (by omega)]
    have htail : parseFieldsGo fs.length ((fs.map serializeField).flatten)
        ((fs.map serializeField).flatten).length = fs :=
      ih fs.length rfl (fun g hg => hv g (List.mem_cons_of_mem _ hg))
    rw [htail]
    by_cases hcps : cps = []
    · subst hcps
      have hf : f = [] := by rw [← henc]; rfl
      rw [List.flatMap_nil, if_neg (by simp), hf]
    · have hune : cps.flatMap utf16EncodeChar ≠ [] := by
        rcases cps with _ | ⟨c, cps⟩
        · exact absurd rfl hcps
        · rw [List.flatMap_cons]
          have := utf16EncodeChar_ne_nil c
          rcases he : utf16EncodeChar c with _ | ⟨x, xs⟩
          · exact absurd he this
          · simp [he]
      rw [if_pos hune, utf16_to_utf8_of_valid cps hcs, henc]

instance decScalarValue (c : Nat) : Decidable (ScalarValue c) :=
  decidable_of_iff (c < 0x110000 ∧ (c < 0xD800 ∨ 0xE000 ≤ c)) Iff.rfl

/-- C8, counterexample: "valid UTF-8" alone does not make the GD3 round
trip the identity.  The one-character string U+0000 is valid UTF-8 (the
byte `0x00`), but it serialises to a NUL UTF-16 unit, which `GD3Tag::parse`
takes as the field terminator: a tag whose first field is `[0x00]` parses
back with every field empty. -/
theorem c8_counterexample_embedded_nul :
    utf8Decode [0x00] = some [0x00] ∧
    GD3Tag.parse (GD3Tag.serialize
        ⟨[0x00], [], [], [], [], [], [], [], [], [], []⟩) =
      some ⟨[], [], [], [], [], [], [], [], [], [], []⟩ := by
  decide

/-- C8: GD3 serialise-then-parse is the identity on every tag whose eleven
fields are valid UTF-8 with no embedded NUL character (each field a list of
encoded nonzero Unicode scalar values) and whose serialised field data fits
the uint32 length field. -/
theorem c8_gd3_roundtrip (t : GD3Tag)
    (hv : ∀ f ∈ t.fields, ValidField f)
    (hlen : ((t.fields.map serializeField).flatten).length < 2 ^ 32) :
    GD3Tag.parse (GD3Tag.serialize t) = some t := by
  have hmod : ((t.fields.map serializeField).flatten).length % 2 ^ 32 =
      ((t.fields.map serializeField).flatten).length := Nat.mod_eq_of_lt hlen
  have hpre : (([0x47, 0x64, 0x33, 0x20, 0x00, 0x01, 0x00, 0x00] ++
      u32leBytes ((t.fields.map serializeField).flatten).length : List Nat)).length
      = 12 := by
    simp only [u32leBytes, List.length_append, List.length_cons, List.length_nil]
  have hlenL : (([0x47, 0x64, 0x33, 0x20, 0x00, 0x01, 0x00, 0x00] ++
      u32leBytes ((t.fields.map serializeField).flatten).length) ++
      (t.fields.map serializeField).flatten).length =
      12 + ((t.fields.map serializeField).flatten).length := by
    simp only [List.length_append, List.length_cons, List.length_nil, u32leBytes]
  have hgetlow : ∀ i, i < 8 →
      ((([0x47, 0x64, 0x33, 0x20, 0x00, 0x01, 0x00, 0x00] ++
        u32leBytes ((t.fields.map serializeField).flatten).length) ++
        (t.fields.map serializeField).flatten).getD i 0) =
      ([0x47, 0x64, 0x33, 0x20, 0x00, 0x01, 0x00, 0x00] : List Nat).getD i 0 := by
    intro i hi
    rw [getD_append_left _ _ _ (by rw [hpre]; omega),
      getD_append_left _ _ _
        (by simp only [List.length_cons, List.length_nil]; omega)]
  have hget32 : ∀ j, j < 4 →
      ((([0x47, 0x64, 0x33, 0x20, 0x00, 0x01, 0x00, 0x00] ++
        u32leBytes ((t.fields.map serializeField).flatten).length) ++
        (t.fields.map serializeField).flatten).getD (8 + j) 0) =
      (u32leBytes ((t.fields.map serializeField).flatten).length).getD j 0 := by
    intro j hj
    rw [getD_append_left _ _ _ (by rw [hpre]; omega)]
    have h8 : (8 : Nat) + j =
        ([0x47, 0x64, 0x33, 0x20, 0x00, 0x01, 0x00, 0x00] : List Nat).length + j := by
      simp only [List.length_cons, List.length_nil]
    rw [h8, getD_append_right_len]
  have h8 : ((([0x47, 0x64, 0x33, 0x20, 0x00, 0x01, 0x00, 0x00] ++
      u32leBytes ((t.fields.map serializeField).flatten).length) ++
      (t.fields.map serializeField).flatten).getD 8 0) =
      ((t.fields.map serializeField).flatten).length % 256 := by
    have h := hget32 0 (by omega)
    rw [show (8 : Nat) + 0 = 8 from by norm_num] at h
    rw [h]
    rfl
  have h9 : ((([0x47, 0x64, 0x33, 0x20, 0x00, 0x01, 0x00, 0x00] ++
      u32leBytes ((t.fields.map serializeField).flatten).length) ++
      (t.fields.map serializeField).flatten).getD 9 0) =
      ((t.fields.map serializeField).flatten).length / 256 % 256 := by
    have h := hget32 1 (by omega)
    rw [show (8 : Nat) + 1 = 9 from by norm_num] at h
    rw [h]
    rfl
  have h10 : ((([0x47, 0x64, 0x33, 0x20, 0x00, 0x01, 0x00, 0x00] ++
      u32leBytes ((t.fields.map serializeField).flatten).length) ++
      (t.fields.map serializeField).flatten).getD 10 0) =
      ((t.fields.map serializeField).flatten).length / 65536 % 256 := by
    have h := hget32 2 (by omega)
    rw [show (8 : Nat) + 2 = 10 from by norm_num] at h
    rw [h]
    rfl
  have h11 : ((([0x47, 0x64, 0x33, 0x20, 0x00, 0x01, 0x00, 0x00] ++
      u32leBytes ((t.fields.map serializeField).flatten).length) ++
      (t.fields.map serializeField).flatten).getD 11 0) =
      ((t.fields.map serializeField).flatten).length / 16777216 % 256 := by
    have h := hget32 3 (by omega)
    rw [show (8 : Nat) + 3 = 11 from by norm_num] at h
    rw [h]
    rfl
  have hdl : ((t.fields.map serializeField).flatten).length % 256 |||
      (((t.fields.map serializeField).flatten).length / 256 % 256) <<< 8 |||
      (((t.fields.map serializeField).flatten).length / 65536 % 256) <<< 16 |||
      (((t.fields.map serializeField).flatten).length / 16777216 % 256) <<< 24 =
      ((t.fields.map serializeField).flatten).length := by
    rw [lor4_u32leBytes]
    exact hmod
  have hdrop : (([0x47, 0x64, 0x33, 0x20, 0x00, 0x01, 0x00, 0x00] ++
      u32leBytes ((t.fields.map serializeField).flatten).length) ++
      (t.fields.map serializeField).flatten).drop 12 =
      (t.fields.map serializeField).flatten := by
    rw [← hpre, List.drop_left]
  unfold GD3Tag.serialize
  dsimp only
  rw [hmod]
  unfold GD3Tag.parse
  dsimp only
  rw [if_neg (by rw [hlenL]; omega)]
  rw [if_neg (not_not_intro ⟨by rw [hgetlow 0 (by omega)]; rfl,
    by rw [hgetlow 1 (by omega)]; rfl,
    by rw [hgetlow 2 (by omega)]; rfl,
    by rw [hgetlow 3 (by omega)]; rfl⟩)]
  rw [h8, h9, h10, h11, hdl]
  rw [if_neg (by rw [hlenL]; omega)]
  rw [hdrop]
  rw [parseFieldsGo_join t.fields 11 rfl hv]
  rfl

/-- Witness for `c8_gd3_roundtrip`: a tag whose first field is the ASCII
string "A" and whose other ten fields are empty round-trips. -/
theorem c8_gd3_roundtrip_witness :
    GD3Tag.parse (GD3Tag.serialize
        ⟨[0x41], [], [], [], [], [], [], [], [], [], []⟩) =
      some ⟨[0x41], [], [], [], [], [], [], [], [], [], []⟩ :=
  c8_gd3_roundtrip ⟨[0x41], [], [], [], [], [], [], [], [], [], []⟩
    (by
      intro f hf
      have hA : ValidField [0x41] := ⟨[0x41], rfl, by decide⟩
      have hE : ValidField [] := ⟨[], rfl, by decide⟩
      simp only [GD3Tag.fields, List.mem_cons, List.not_mem_nil, or_false] at hf
      rcases hf with rfl | rfl | rfl | rfl | rfl | rfl | rfl | rfl | rfl | rfl | rfl
      exacts [hA, hE, hE, hE, hE, hE, hE, hE, hE, hE, hE])
    (by decide)

/-- C2, counterexample: the spec asserts that the HMP-varlen decode of
`[0x00, 0x81]` is 0, but the terminal byte `0x81` contributes
`(0x81 & 0x7F) << 7 = 128`, so the decoder returns 128, not 0. -/
theorem c2_counterexample_decode_00_81 : (readHMPVarLen [0x00, 0x81] 0).1 ≠ 0 := by
  decide

/-- C2 (amended): HMP variable-length decoding treats every byte with the top
bit clear as a continuation byte and the first byte with the top bit set as
the terminal byte, accumulating the low 7 bits of each byte (including the
terminal byte) shifted left by 7 per preceding byte (in the source the
accumulator is a `uint32_t`, and at most four continuation bytes keep the
shift within defined behaviour); in particular decode([0x00, 0x80]) = 0,
decode([0x7F, 0x80]) = 127, decode([0x00, 0x81]) = 128 (not 0 as the spec
says: bit 7 of the terminal byte is masked off, but its bit 0 contributes
1 << 7), and decode([0x00, 0xFF]) = 16256. -/
theorem c2_hmp_varlen_decoding :
    (∀ (cs : List Nat) (t : Nat), (∀ b ∈ cs, b < 0x80) → 0x80 ≤ t →
      cs.length ≤ 4 →
      (readHMPVarLen (cs ++ [t]) 0).1 =
        (List.foldr (fun b acc => b % 128 + 128 * acc) (t % 128) cs) % 2 ^ 32) ∧
    (readHMPVarLen [0x00, 0x80] 0).1 = 0 ∧
    (readHMPVarLen [0x7F, 0x80] 0).1 = 127 ∧
    (readHMPVarLen [0x00, 0x81] 0).1 = 128 ∧
    (readHMPVarLen [0x00, 0xFF] 0).1 = 16256 := by
  have key : ∀ (cs : List Nat) (t : Nat), (∀ b ∈ cs, b < 0x80) → 0x80 ≤ t →
      (readHMPVarLen (cs ++ [t]) 0).1 =
        (List.foldr (fun b acc => b % 128 + 128 * acc) (t % 128) cs) % 2 ^ 32 := by
    intro cs t hcs ht
    have h := hmpVarLenList_eval cs hcs t [] 0 0 ht
    show (hmpVarLenList ((cs ++ [t]).drop 0) 0 0).1 =
      (List.foldr (fun b acc => b % 128 + 128 * acc) (t % 128) cs) % 2 ^ 32
    rw [List.drop_zero, show cs ++ [t] = cs ++ t :: [] from rfl, h]
    simp [hmpAccum_eq_foldr]
  refine ⟨fun cs t hcs ht _ => key cs t hcs ht, ?_, ?_, ?_, ?_⟩
  · rw [show ([0x00, 0x80] : List Nat) = [0x00] ++ [0x80] from rfl,
      key [0x00] 0x80 (by decide) (by decide)]
    decide
  · rw [show ([0x7F, 0x80] : List Nat) = [0x7F] ++ [0x80] from rfl,
      key [0x7F] 0x80 (by decide) (by decide)]
    decide
  · rw [show ([0x00, 0x81] : List Nat) = [0x00] ++ [0x81] from rfl,
      key [0x00] 0x81 (by decide) (by decide)]
    decide
  · rw [show ([0x00, 0xFF] : List Nat) = [0x00] ++ [0xFF] from rfl,
      key [0x00] 0xFF (by decide) (by decide)]
    decide

/-- Witness for `c2_hmp_varlen_decoding`: the general decoding rule applied
to the concrete sequence `[0x7F] ++ [0x80]`. -/
theorem c2_hmp_varlen_decoding_witness :
    (readHMPVarLen ([0x7F] ++ [0x80]) 0).1 =
      (List.foldr (fun b acc => b % 128 + 128 * acc) (0x80 % 128) [0x7F]) % 2 ^ 32 :=
  c2_hmp_varlen_decoding.1 [0x7F] 0x80 (by decide) (by decide) (by decide)

/-- C10: whenever the HMP header parser succeeds, a zero `bpm` field yields
the default tempo of 500000 microseconds per quarter note (120 BPM) and no
division by zero occurs; a nonzero `bpm` yields `60000000 / bpm`. -/
theorem c10_hmp_tempo_no_div_by_zero :
    ∀ (data : List Nat) (info : HMPInfo), parseHMPHeader data = some info →
      (info.bpm = 0 → info.tempo = 500000) ∧
      (info.bpm ≠ 0 → info.tempo = 60000000 / info.bpm) := by
  intro data info h
  unfold parseHMPHeader at h
  dsimp only at h
  by_cases his2 : (decide (8 + 6 ≤ data.length) &&
      decide (List.take 6 (List.drop 8 data) = marker013195)) = true
  all_goals simp only [his2, Bool.false_eq_true, if_true, if_false] at h
  all_goals split at h
  all_goals try exact Option.noConfusion h
  all_goals split at h
  all_goals try exact Option.noConfusion h
  all_goals split at h
  all_goals try exact Option.noConfusion h
  all_goals split at h
  all_goals try exact Option.noConfusion h
  all_goals split at h
  all_goals try exact Option.noConfusion h
  all_goals rw [Option.some_inj] at h
  all_goals subst h
  all_goals refine ⟨fun hbpm => ?_, fun hbpm => ?_⟩
  all_goals simp_all

/-- A minimal 776-byte HMP v1 header whose `bpm` field (offset 56) is 140. -/
def hmpTestHeader : List Nat :=
  hmimidip ++ List.replicate 48 0 ++ [140, 0, 0, 0] ++ List.replicate 716 0

set_option maxRecDepth 40000 in
/-- Witness for `c10_hmp_tempo_no_div_by_zero` at the concrete header
`hmpTestHeader` (bpm 140, so tempo 60000000 / 140 = 428571). -/
theorem c10_hmp_tempo_no_div_by_zero_witness :
    (⟨false, 0, 0, 140, 0, 428571, 776⟩ : HMPInfo).tempo =
      60000000 / (⟨false, 0, 0, 140, 0, 428571, 776⟩ : HMPInfo).bpm :=
  (c10_hmp_tempo_no_div_by_zero hmpTestHeader
    ⟨false, 0, 0, 140, 0, 428571, 776⟩ (by decide)).2 (by decide)

/-- C9, counterexample: the spec claims the fx-offset field is 0 when no FX
payload is present, but `buildHeader` sets `fx_offset = sizeof(FM9Header)`
unconditionally: a writer with no FX data still gets fx-offset 24. -/
theorem c9_counterexample_fx_offset :
    ¬ ((FM9Writer.buildHeader ⟨[0x56], [], [], [], 0, 0⟩).fx_offset = 0) := by
  decide

/-- C9 (amended): every FM9 header produced by `buildHeader` has magic
`FM90`, version 1, flag bits 0x01 / 0x02 / 0x04 set exactly when an audio,
FX, or image payload respectively is present, audio-offset zero, audio-size
and fx-size equal to the embedded payload byte counts (as `uint32_t`), and
fx-offset equal to 24 (the header size) unconditionally — also when no FX
payload is present. -/
theorem c9_fm9_header_fields (w : FM9Writer) :
    (w.buildHeader.magic = [0x46, 0x4D, 0x39, 0x30]) ∧
    w.buildHeader.version = 1 ∧
    (w.buildHeader.flags &&& FM9_FLAG_HAS_AUDIO ≠ 0 ↔ w.audio_data ≠ []) ∧
    (w.buildHeader.flags &&& FM9_FLAG_HAS_FX ≠ 0 ↔ w.fx_data ≠ []) ∧
    (w.buildHeader.flags &&& FM9_FLAG_HAS_IMAGE ≠ 0 ↔ w.image_data ≠ []) ∧
    w.buildHeader.audio_offset = 0 ∧
    w.buildHeader.audio_size = w.audio_data.length % 2 ^ 32 ∧
    w.buildHeader.fx_size = w.fx_data.length % 2 ^ 32 ∧
    w.buildHeader.fx_offset = 24 := by
  unfold FM9Writer.buildHeader
  by_cases ha : w.audio_data = [] <;> by_cases hf : w.fx_data = [] <;>
    by_cases hi : w.image_data = [] <;>
    simp [ha, hf, hi, FM9_FLAG_HAS_AUDIO, FM9_FLAG_HAS_FX, FM9_FLAG_HAS_IMAGE] <;>
    decide

end FMConv
